import Mathlib

/-!
# Verification of the lightweight polygon editor core

Shallow embedding of the editor core of the repository
(`src/index.js`: node/topology model, mirror constraint engine, weighted
displacement, history manager, insert/delete; `FrameManager`: frame
interpolation and easing).  Numbers are modelled by `ℚ` (exact rational
arithmetic in place of IEEE doubles); the easing table, which uses
transcendental functions, is modelled over `ℝ`.
-/

namespace PolyEdit

/-- A polygon vertex (`createNode` in `src/index.js`): stable id, position,
optional mirror partner id, primary flag. -/
structure Node where
  id : ℕ
  x : ℚ
  y : ℚ
  mirrorId : Option ℕ
  primary : Bool
deriving DecidableEq, Repr

/-- The editable state captured by the editor's module-level variables and by
history snapshots (`snapshot()` in `createHistoryManager`). -/
structure EditorState where
  points : List Node
  nodeIdCounter : ℕ
  selectedIds : List ℕ
  panX : ℚ
  panY : ℚ
  zoom : ℚ
  mirrorEnabled : Bool
  weightEnabled : Bool
  perHopFalloff : ℚ
  maxHops : ℕ
deriving DecidableEq, Repr

/-- `EPS` from the source (`1e-6`). -/
def EPS : ℚ := 1 / 1000000

/-- `indexOfNodeId` / the `idToIndex` map: current array position of the node
with the given id, or `none` (`-1` in the source).  Ids are unique in every
reachable state, so the position is the first (and only) occurrence. -/
def indexOfNodeId (pts : List Node) (i : ℕ) : Option ℕ :=
  match pts with
  | [] => none
  | n :: rest =>
    if n.id = i then some 0 else (indexOfNodeId rest i).map (· + 1)

/-- `primaryIndexFor(idx)`: canonical index for a node — itself when primary
or unpaired, otherwise the partner's index (falling back to `idx` when the
partner id does not resolve). -/
def primaryIndexFor (pts : List Node) (idx : ℕ) : Option ℕ :=
  match pts.get? idx with
  | none => none
  | some node =>
    if node.primary || node.mirrorId.isNone then some idx
    else
      match node.mirrorId.bind (indexOfNodeId pts) with
      | some partnerIdx => some partnerIdx
      | none => some idx

/-- `getMirrorIndex(idx)`: index of the mirror partner of the node at `idx`,
or `none`. -/
def getMirrorIndex (pts : List Node) (idx : ℕ) : Option ℕ :=
  match pts.get? idx with
  | none => none
  | some node =>
    match node.mirrorId with
    | none => none
    | some m => indexOfNodeId pts m

/-- `ringDistance(i, j, N) = min(|i-j|, N-|i-j|)`. -/
def ringDistance (i j N : ℕ) : ℕ :=
  let d := ((i : ℤ) - (j : ℤ)).natAbs
  min d (N - d)

/-- The inner minimisation of `moveSelectedBy`: least ring distance from `i`
to any selected index (`Infinity` is modelled by the sentinel `N + 1`, which
exceeds every ring distance; `moveSelectedBy` only consults this with a
non-empty selection). -/
def minHop (selIdx : List ℕ) (i N : ℕ) : ℕ :=
  selIdx.foldl (fun best s => min best (ringDistance i s N)) (N + 1)

/-- The per-node weight computed by `moveSelectedBy`. -/
def hopWeight (weightEnabled : Bool) (falloff : ℚ) (maxHops : ℕ)
    (selIdx : List ℕ) (N i : ℕ) : ℚ :=
  let best := minHop selIdx i N
  if best = 0 then 1
  else if weightEnabled ∧ best ≤ maxHops then falloff ^ best
  else 0

/-- The displacement loop of `moveSelectedBy`: nodes with weight `0` are
skipped (`continue`), the rest receive `(dx·w, dy·w)`. -/
def displacePoints (pts : List Node) (w : ℕ → ℚ) (dx dy : ℚ) : List Node :=
  pts.mapIdx (fun i n =>
    if w i = 0 then n else { n with x := n.x + dx * w i, y := n.y + dy * w i })

/-- One iteration of the `affectedPrimaries.forEach` loop in
`applyMirrorConstraints`: the accumulator carries the current node array and
the `processed` id set. -/
def mirrorStep (sel : List ℕ) (acc : List Node × List ℕ) (a : ℕ) :
    List Node × List ℕ :=
  let pts := acc.1
  let processed := acc.2
  match primaryIndexFor pts a with
  | none => acc
  | some canonicalIdx =>
    match pts.get? canonicalIdx with
    | none => acc
    | some primary =>
      if primary.id ∈ processed then acc
      else
        match getMirrorIndex pts canonicalIdx with
        | none => acc
        | some partnerIdx =>
          match pts.get? partnerIdx with
          | none => acc
          | some partner =>
            let processed' := primary.id :: partner.id :: processed
            let primarySelected := sel.contains primary.id
            let partnerSelected := sel.contains partner.id
            let pq : Node × Node :=
              if primarySelected ∧ ¬ partnerSelected then
                (primary, { partner with x := -primary.x, y := primary.y })
              else if ¬ primarySelected ∧ partnerSelected then
                ({ primary with x := -partner.x, y := partner.y }, partner)
              else if primarySelected ∧ partnerSelected then
                let avgY := (primary.y + partner.y) / 2
                let magnitude := (|primary.x| + |partner.x|) / 2
                let primarySign : ℚ := if primary.x ≥ 0 then 1 else -1
                ({ primary with x := magnitude * primarySign, y := avgY },
                 { partner with x := -(magnitude * primarySign), y := avgY })
              else
                (primary, { partner with x := -primary.x, y := primary.y })
            ((pts.set canonicalIdx pq.1).set partnerIdx pq.2, processed')

/-- `applyMirrorConstraints(affectedPrimaries)`: reconcile every affected
mirror pair (four cases depending on which side is selected). -/
def applyMirrorConstraints (pts : List Node) (sel : List ℕ)
    (affected : List ℕ) : List Node :=
  (affected.foldl (mirrorStep sel) (pts, [])).1

/-- The selected indices resolved from the selection id set
(`getSelectedIndices`). -/
def getSelectedIndices (st : EditorState) : List ℕ :=
  st.selectedIds.filterMap (indexOfNodeId st.points)

/-- `moveSelectedBy(dx, dy)`: weighted displacement followed, when mirroring
is enabled and some node moved, by mirror reconciliation. -/
def moveSelectedBy (st : EditorState) (dx dy : ℚ) : EditorState :=
  if st.selectedIds.isEmpty then st
  else
    let selIdx := getSelectedIndices st
    if selIdx.isEmpty then st
    else
      let N := st.points.length
      let w : ℕ → ℚ :=
        hopWeight st.weightEnabled st.perHopFalloff st.maxHops selIdx N
      let pts1 := displacePoints st.points w dx dy
      let affected := (List.range N).filterMap (fun i =>
        if w i = 0 then none else primaryIndexFor pts1 i)
      let pts2 :=
        if st.mirrorEnabled ∧ ¬ affected.isEmpty then
          applyMirrorConstraints pts1 st.selectedIds affected
        else pts1
      { st with points := pts2 }

/-! ## History manager (`createHistoryManager`) -/

/-- A history entry: label plus the snapshotted editable state (`snapshot()`
produces a deep copy, which in this pure model is the state value itself). -/
structure HistoryEntry where
  label : String
  state : EditorState
deriving DecidableEq, Repr

/-- The two stacks plus the optional open checkpoint.  Stacks grow at the
head (`push` = cons, `pop` = uncons). -/
structure History where
  past : List HistoryEntry
  future : List HistoryEntry
  checkpoint : Option HistoryEntry
deriving DecidableEq, Repr

/-- `undo()`: cancel any open checkpoint, then pop the past stack, push the
current snapshot onto the future stack and restore the popped state.  Returns
the new history and the (restored) editable state. -/
def histUndo (h : History) (cur : EditorState) : History × EditorState :=
  let h1 : History := if h.checkpoint.isSome then { h with checkpoint := none } else h
  match h1.past with
  | [] => (h1, cur)
  | entry :: rest =>
    ({ h1 with past := rest, future := ⟨entry.label, cur⟩ :: h1.future },
     entry.state)

/-- `redo()`: pop the future stack, push the current snapshot onto the past
stack and restore the popped state. -/
def histRedo (h : History) (cur : EditorState) : History × EditorState :=
  match h.future with
  | [] => (h, cur)
  | entry :: rest =>
    ({ h with future := rest, past := ⟨entry.label, cur⟩ :: h.past },
     entry.state)

/-! ## Delete handler (keydown `Delete`/`Backspace` branch) -/

/-- The removal set computed by the delete handler: the selected indices plus,
for each, the mirror partner of its canonical primary (a JS `Set`, modelled by
a deduplicated list). -/
def removalIndicesOf (st : EditorState) : List ℕ :=
  let selIdx := getSelectedIndices st
  (selIdx ++ selIdx.filterMap (fun idx =>
    (primaryIndexFor st.points idx).bind (getMirrorIndex st.points))).dedup

/-- Net effect of the descending-order `splice` loop: drop exactly the
entries whose index lies in `rem`. -/
def removeIndices (pts : List Node) (rem : List ℕ) : List Node :=
  (pts.enum.filter (fun p => !(rem.contains p.1))).map Prod.snd

/-- `clearMirrorPairs()`. -/
def clearMirrorPairs (pts : List Node) : List Node :=
  pts.map (fun n => { n with mirrorId := none, primary := true })

/-- `Math.sign`. -/
def qsign (x : ℚ) : ℤ :=
  if x > 0 then 1 else if x < 0 then -1 else 0

/-- `linkMirrorPair(primaryIdx, mirrorIdx)`: set mutual mirror ids; the node
at `primaryIdx` becomes primary, the other one secondary. -/
def linkMirrorPair (pts : List Node) (primaryIdx mirrorIdx : ℕ) : List Node :=
  match pts.get? primaryIdx, pts.get? mirrorIdx with
  | some primary, some mirror =>
    (pts.set primaryIdx { primary with mirrorId := some mirror.id, primary := true }).set
      mirrorIdx { mirror with mirrorId := some primary.id, primary := false }
  | _, _ => pts

/-- The inner best-candidate search of `rebuildMirrorPairs`: scan all `j ≠ i`
that are unused, lie on the opposite side of the axis, and whose symmetry
error is within the tolerance `5`; keep the first minimiser of
`|xᵢ + xⱼ| + |yᵢ − yⱼ|`. -/
def findBestMirror (pts : List Node) (used : List ℕ) (i : ℕ) (node : Node) :
    Option ℕ :=
  ((List.range pts.length).foldl (fun best j =>
    if j = i then best
    else
      match pts.get? j with
      | none => best
      | some other =>
        if other.id ∈ used then best
        else if qsign node.x = qsign other.x then best
        else
          let symmetryError := |node.x + other.x|
          if symmetryError > 5 then best
          else
            let score := symmetryError + |node.y - other.y|
            match best with
            | none => some (j, score)
            | some (bj, bs) => if score < bs then some (j, score) else some (bj, bs))
    none).map Prod.fst

/-- One iteration of the outer loop of `rebuildMirrorPairs`. -/
def rebuildStep (acc : List Node × List ℕ) (i : ℕ) : List Node × List ℕ :=
  let pts := acc.1
  let used := acc.2
  match pts.get? i with
  | none => acc
  | some node =>
    if node.id ∈ used then acc
    else if |node.x| ≤ EPS then acc
    else
      match findBestMirror pts used i node with
      | none => acc
      | some j =>
        match pts.get? j with
        | none => acc
        | some other => (linkMirrorPair pts i j, other.id :: node.id :: used)

/-- `rebuildMirrorPairs()` with mirroring enabled: clear all pairs, then
greedily re-derive them. -/
def rebuildMirrorPairs (pts : List Node) : List Node :=
  let cleared := clearMirrorPairs pts
  ((List.range cleared.length).foldl rebuildStep (cleared, [])).1

/-- The `Delete`/`Backspace` branch of the keydown handler: refuse silently
when the removal would leave fewer than 3 vertices; otherwise record history,
splice out the removal set, clear the selection and (with mirroring on)
rebuild the pairs. -/
def deleteSelected (st : EditorState) (hist : History) :
    EditorState × History :=
  if st.selectedIds.isEmpty then (st, hist)
  else
    let rem := removalIndicesOf st
    if 3 ≤ st.points.length - rem.length then
      let pts1 := removeIndices st.points rem
      let pts2 := if st.mirrorEnabled then rebuildMirrorPairs pts1 else pts1
      ({ st with points := pts2, selectedIds := [] },
       { hist with past := ⟨"Delete Vertices", st⟩ :: hist.past, future := [] })
    else (st, hist)

/-! ## `insertVertexOnEdge` -/

/-- JS `splice(k, 0, a)`: insert at position `k`, appending when `k` exceeds
the length (this agrees with `List.insertIdx` except that `insertIdx` drops
the element for out-of-range positions, which the caller rules out). -/
def spliceIn (k : ℕ) (a : Node) (l : List Node) : List Node :=
  l.take k ++ a :: l.drop k

/-- `insertVertexOnEdge(edgeIndex, worldPos)`: insert a vertex after the edge
start; with mirroring enabled and the position off the axis, create a linked
twin at `(−x, y)` inserted after the mirror of the edge end's canonical
primary (falling back to right after the new node).  Returns the new state
and the index of the new node. -/
def insertVertexOnEdge (st : EditorState) (edgeIndex : ℕ) (wx wy : ℚ) :
    EditorState × Option ℕ :=
  if st.points.length < 3 then (st, none)
  else
    let beforeLength := st.points.length
    let edgeStart := edgeIndex % beforeLength
    let edgeEnd := (edgeStart + 1) % beforeLength
    let endMirrorId : Option ℕ :=
      ((primaryIndexFor st.points edgeEnd).bind
        (getMirrorIndex st.points)).bind (fun k => (st.points.get? k).map Node.id)
    let newNode : Node := ⟨st.nodeIdCounter, wx, wy, none, true⟩
    let pts1 := spliceIn (edgeStart + 1) newNode st.points
    let newIdx := (indexOfNodeId pts1 newNode.id).getD 0
    if st.mirrorEnabled ∧ |wx| > EPS then
      let mirrorInsertIndex : Option ℕ :=
        (endMirrorId.bind (indexOfNodeId pts1)).map (· + 1)
      let mirrorNode : Node := ⟨st.nodeIdCounter + 1, -wx, wy, some newNode.id, false⟩
      let pts1' := pts1.set newIdx { newNode with mirrorId := some mirrorNode.id }
      let mii := match mirrorInsertIndex with
        | some k => if k > pts1'.length then newIdx + 1 else k
        | none => newIdx + 1
      let pts2 := spliceIn mii mirrorNode pts1'
      let pts3 :=
        match indexOfNodeId pts2 newNode.id, indexOfNodeId pts2 mirrorNode.id with
        | some ni, some mi => linkMirrorPair pts2 ni mi
        | _, _ => pts2
      ({ st with points := pts3, nodeIdCounter := st.nodeIdCounter + 2 },
       indexOfNodeId pts3 newNode.id)
    else
      ({ st with points := pts1, nodeIdCounter := st.nodeIdCounter + 1 },
       indexOfNodeId pts1 newNode.id)

/-! ## Frame manager (`FrameManager`): shapes, layers, frames, interpolation

Ids of frames, layers and shapes are randomly regenerated on every
construction, so the model omits them: equality of these structures is
exactly "deep equality up to id regeneration". -/

/-- A 2D point of a shape. -/
structure Point2 where
  x : ℚ
  y : ℚ
deriving DecidableEq, Repr

/-- A shape: type tag, vertex sequence, closed flag (id omitted). -/
structure VShape where
  type : String
  vertices : List Point2
  closed : Bool
deriving DecidableEq, Repr

/-- A layer: metadata plus shapes (id omitted). -/
structure VLayer where
  name : String
  visible : Bool
  locked : Bool
  shapes : List VShape
deriving DecidableEq, Repr

/-- A keyframe (id omitted). -/
structure Frame where
  layers : List VLayer
deriving DecidableEq, Repr

/-- The linear interpolation `a + (b − a)·t` used throughout `FrameManager`. -/
def lerp (a b t : ℚ) : ℚ := a + (b - a) * t

/-- `resampleVertices(vertices, targetCount)`: arc-position resampling over
the vertex index space (the unreachable empty-list case yields the origin). -/
def resampleVertices (vs : List Point2) (target : ℕ) : List Point2 :=
  if vs.length = target then vs
  else
    (List.range target).map (fun i =>
      let index : ℚ := ((i : ℚ) / (target : ℚ)) * (vs.length : ℚ)
      let lowerIndex := (⌊index⌋).toNat % vs.length
      let upperIndex := (lowerIndex + 1) % vs.length
      let fraction : ℚ := index - (⌊index⌋ : ℚ)
      match vs.get? lowerIndex, vs.get? upperIndex with
      | some a, some b => ⟨lerp a.x b.x fraction, lerp a.y b.y fraction⟩
      | _, _ => ⟨0, 0⟩)

/-- `interpolateShape(startShape, endShape, t)`. -/
def interpolateShape (s e : VShape) (t : ℚ) : VShape :=
  let verts :=
    if s.vertices.length = e.vertices.length then
      (s.vertices.zip e.vertices).map (fun pq =>
        ⟨lerp pq.1.x pq.2.x t, lerp pq.1.y pq.2.y t⟩)
    else
      let targetCount := max s.vertices.length e.vertices.length
      let rs := resampleVertices s.vertices targetCount
      let re := resampleVertices e.vertices targetCount
      (rs.zip re).map (fun pq => ⟨lerp pq.1.x pq.2.x t, lerp pq.1.y pq.2.y t⟩)
  ⟨s.type, verts, s.closed⟩

/-- `interpolateShapeToNothing(shape, scale)`: scale toward the centroid. -/
def interpolateShapeToNothing (sh : VShape) (scale : ℚ) : VShape :=
  let n : ℚ := sh.vertices.length
  let cx := (sh.vertices.map Point2.x).sum / n
  let cy := (sh.vertices.map Point2.y).sum / n
  ⟨sh.type,
   sh.vertices.map (fun v => ⟨cx + (v.x - cx) * scale, cy + (v.y - cy) * scale⟩),
   sh.closed⟩

/-- The shape loop of `createInterpolatedFrame`: for every slot up to
`max(startCount, endCount)`, interpolate when both shapes exist, otherwise
fade the lone shape to/from its centroid (`1 − t` for a vanishing start
shape, `t` for an appearing end shape).  The source iterates slot indices;
this walks the two lists in parallel, which visits exactly the same pairs. -/
def interpShapes (t : ℚ) : List VShape → List VShape → List VShape
  | [], es => es.map (fun e => interpolateShapeToNothing e t)
  | ss, [] => ss.map (fun s => interpolateShapeToNothing s (1 - t))
  | s :: rs, e :: re => interpolateShape s e t :: interpShapes t rs re

/-- The per-layer body of `createInterpolatedFrame`: layer metadata is taken
from the start layer, shapes are interpolated slot by slot. -/
def interpolateLayer (sl el : VLayer) (t : ℚ) : VLayer :=
  ⟨sl.name, sl.visible, sl.locked, interpShapes t sl.shapes el.shapes⟩

/-- The layer loop of `createInterpolatedFrame`: the source iterates the
start frame's layer indices and reads the end frame's layer at the same
index, throwing when it is missing (modelled by `none`); surplus end layers
are ignored. -/
def interpLayers (t : ℚ) : List VLayer → List VLayer → Option (List VLayer)
  | [], _ => some []
  | _ :: _, [] => none
  | sl :: rest, el :: rest2 =>
    (interpLayers t rest rest2).map (interpolateLayer sl el t :: ·)

/-- `createInterpolatedFrame(startFrame, endFrame, t)`. -/
def createInterpolatedFrame (A B : Frame) (t : ℚ) : Option Frame :=
  (interpLayers t A.layers B.layers).map Frame.mk

/-- Result of `interpolateBetweenFrames`: success flag, resulting frame list,
and whether a `console.warn` was emitted. -/
structure InterpResult where
  ok : Bool
  frames : List Frame
  warned : Bool
deriving DecidableEq, Repr

/-- `interpolateBetweenFrames(startFrame, endFrame, numFrames, easingType,
insertIndex)`: refuse (warn, return `false`) on mismatched layer counts,
otherwise build `numFrames` in-betweens at `t = i/(numFrames+1)` and splice
them in at `insertIndex`.  The easing function is passed resolved (the source
looks it up in the table, falling back to `linear`); after the layer-count
guard `createInterpolatedFrame` always succeeds, so the `filterMap` drops
nothing. -/
def interpolateBetweenFrames (easingFn : ℚ → ℚ) (frames : List Frame)
    (startF endF : Frame) (numFrames : ℕ) (insertIndex : ℕ) : InterpResult :=
  if startF.layers.length ≠ endF.layers.length then
    ⟨false, frames, true⟩
  else
    let newFrames := (List.range numFrames).filterMap (fun k =>
      let t : ℚ := ((k : ℚ) + 1) / ((numFrames : ℚ) + 1)
      createInterpolatedFrame startF endF (easingFn t))
    ⟨true, frames.take insertIndex ++ newFrames ++ frames.drop insertIndex, false⟩

/-! ## Easing table (`FrameManager.easing`)

The source computes with IEEE doubles and `Math.pow`/`Math.sin`; the model
uses exact real arithmetic. -/

namespace Easing

noncomputable section

def linear (t : ℝ) : ℝ := t

def easeInQuad (t : ℝ) : ℝ := t * t

def easeOutQuad (t : ℝ) : ℝ := t * (2 - t)

def easeInOutQuad (t : ℝ) : ℝ :=
  if t < 1/2 then 2 * t * t else -1 + (4 - 2 * t) * t

def easeInCubic (t : ℝ) : ℝ := t * t * t

/-- `(--t) * t * t + 1` (the decrement happens before every read). -/
def easeOutCubic (t : ℝ) : ℝ := (t - 1) * (t - 1) * (t - 1) + 1

def easeInOutCubic (t : ℝ) : ℝ :=
  if t < 1/2 then 4 * t * t * t
  else (t - 1) * (2 * t - 2) * (2 * t - 2) + 1

def easeInQuart (t : ℝ) : ℝ := t * t * t * t

/-- `1 - (--t) * t * t * t`. -/
def easeOutQuart (t : ℝ) : ℝ := 1 - (t - 1) * (t - 1) * (t - 1) * (t - 1)

def easeInOutQuart (t : ℝ) : ℝ :=
  if t < 1/2 then 8 * t * t * t * t
  else 1 - 8 * (t - 1) * (t - 1) * (t - 1) * (t - 1)

def easeInElastic (t : ℝ) : ℝ :=
  if t = 0 ∨ t = 1 then t
  else -(2 : ℝ) ^ (10 * (t - 1)) * Real.sin ((t - 11/10) * 5 * Real.pi)

def easeOutElastic (t : ℝ) : ℝ :=
  if t = 0 ∨ t = 1 then t
  else (2 : ℝ) ^ (-10 * t) * Real.sin ((t - 1/10) * 5 * Real.pi) + 1

/-- The four-branch bounce (constants written as the exact rationals the
source's decimal literals denote: `7.5625 = 121/16`, `2.75 = 11/4`, …). -/
def easeOutBounce (t : ℝ) : ℝ :=
  if t < 4/11 then 121/16 * t * t
  else if t < 8/11 then 121/16 * (t - 6/11) * (t - 6/11) + 3/4
  else if t < 10/11 then 121/16 * (t - 9/11) * (t - 9/11) + 15/16
  else 121/16 * (t - 21/22) * (t - 21/22) + 63/64

end

end Easing

/-! ## Basic lemmas about the id lookup -/

theorem indexOfNodeId_some_lt {pts : List Node} {i k : ℕ}
    (h : indexOfNodeId pts i = some k) : k < pts.length := by
  induction pts generalizing k with
  | nil => simp [indexOfNodeId] at h
  | cons a rest ih =>
    rw [indexOfNodeId] at h
    by_cases ha : a.id = i
    · rw [if_pos ha] at h
      cases h
      simp
    · rw [if_neg ha] at h
      cases hr : indexOfNodeId rest i with
      | none => rw [hr] at h; simp at h
      | some j =>
        rw [hr] at h
        simp only [Option.map_some'] at h
        cases h
        have := ih hr
        simp only [List.length_cons]
        omega

theorem indexOfNodeId_get? {pts : List Node} {i k : ℕ}
    (h : indexOfNodeId pts i = some k) :
    ∃ n, pts.get? k = some n ∧ n.id = i := by
  induction pts generalizing k with
  | nil => simp [indexOfNodeId] at h
  | cons a rest ih =>
    rw [indexOfNodeId] at h
    by_cases ha : a.id = i
    · rw [if_pos ha] at h
      cases h
      exact ⟨a, List.get?_cons_zero, ha⟩
    · rw [if_neg ha] at h
      cases hr : indexOfNodeId rest i with
      | none => rw [hr] at h; simp at h
      | some j =>
        rw [hr] at h
        simp only [Option.map_some'] at h
        cases h
        obtain ⟨n, hn, hni⟩ := ih hr
        exact ⟨n, by rw [List.get?_cons_succ]; exact hn, hni⟩

theorem indexOfNodeId_of_get? {pts : List Node}
    (hnd : (pts.map Node.id).Nodup) {k : ℕ} {n : Node}
    (h : pts.get? k = some n) : indexOfNodeId pts n.id = some k := by
  induction pts generalizing k with
  | nil => simp at h
  | cons a rest ih =>
    have hnd2 : a.id ∉ rest.map Node.id ∧ (rest.map Node.id).Nodup := by
      rw [List.map_cons, List.nodup_cons] at hnd
      exact hnd
    rcases k with _ | k
    · rw [List.get?_cons_zero] at h
      cases h
      rw [indexOfNodeId, if_pos rfl]
    · rw [List.get?_cons_succ] at h
      have hmem : n.id ∈ rest.map Node.id :=
        List.mem_map_of_mem Node.id (List.get?_mem h)
      have hne : ¬ a.id = n.id := fun hc => hnd2.1 (hc ▸ hmem)
      rw [indexOfNodeId, if_neg hne, ih hnd2.2 h]
      rfl

/-- Element access through the displacement loop. -/
theorem displacePoints_get? (pts : List Node) (w : ℕ → ℚ) (dx dy : ℚ)
    (i : ℕ) :
    (displacePoints pts w dx dy).get? i =
      (pts.get? i).map (fun n =>
        if w i = 0 then n
        else { n with x := n.x + dx * w i, y := n.y + dy * w i }) := by
  simp [displacePoints, List.get?_eq_getElem?, List.getElem?_mapIdx]

/-! ## C2: single-selection weighted falloff -/

/-- C2: with exactly one selected node resolving to index `s`, weighting on
and mirroring off, `moveSelectedBy(dx, dy)` displaces node `i` by exactly
`falloff^k · (dx, dy)` where `k = ringDistance(i, s, N)` when
`1 ≤ k ≤ maxHops`, by exactly `(dx, dy)` when `k = 0`, and not at all when
`k > maxHops`. -/
theorem single_selection_falloff (st : EditorState) (dx dy : ℚ)
    (sid s i : ℕ)
    (hsel : st.selectedIds = [sid])
    (hres : indexOfNodeId st.points sid = some s)
    (hw : st.weightEnabled = true)
    (hm : st.mirrorEnabled = false) :
    (moveSelectedBy st dx dy).points.get? i =
      (st.points.get? i).map (fun n =>
        let k := ringDistance i s st.points.length
        if k = 0 then { n with x := n.x + dx, y := n.y + dy }
        else if k ≤ st.maxHops then
          { n with x := n.x + st.perHopFalloff ^ k * dx,
                   y := n.y + st.perHopFalloff ^ k * dy }
        else n) := by
  have hselIdx : getSelectedIndices st = [s] := by
    simp [getSelectedIndices, hsel, hres]
  rw [moveSelectedBy]
  simp only [hsel, hselIdx, hm, List.isEmpty_cons, false_and, if_false,
    Bool.false_eq_true, ite_false]
  rw [displacePoints_get?]
  cases hpt : st.points.get? i with
  | none => simp
  | some n =>
    have hi : i < st.points.length := by
      by_contra hge
      rw [List.get?_eq_none.mpr (Nat.le_of_not_lt hge)] at hpt
      exact Option.noConfusion hpt
    have hs : s < st.points.length := indexOfNodeId_some_lt hres
    have hhop : minHop [s] i st.points.length =
        ringDistance i s st.points.length := by
      simp only [minHop, List.foldl_cons, List.foldl_nil]
      have : ringDistance i s st.points.length < st.points.length + 1 := by
        rw [ringDistance]
        omega
      omega
    simp only [Option.map_some']
    rw [hopWeight]
    simp only [hhop, hw]
    set k := ringDistance i s st.points.length with hk
    by_cases hk0 : k = 0
    · simp [hk0, mul_comm]
    · by_cases hkm : k ≤ st.maxHops
      · simp only [hk0, if_false, true_and, hkm, if_true]
        by_cases hz : st.perHopFalloff ^ k = 0
        · simp [hz, mul_comm]
        · simp [hz, mul_comm]
      · simp [hk0, hkm]

/-- A concrete octagon with node ids 1..8, node 0 selected, falloff `1/2`,
`maxHops = 2`, used to witness C2. -/
def octagonC2 : EditorState :=
  ⟨[⟨1, 0, 100, none, true⟩, ⟨2, 71, 71, none, true⟩, ⟨3, 100, 0, none, true⟩,
    ⟨4, 71, -71, none, true⟩, ⟨5, 0, -100, none, true⟩, ⟨6, -71, -71, none, true⟩,
    ⟨7, -100, 0, none, true⟩, ⟨8, -71, 71, none, true⟩],
   9, [1], 0, 0, 1, false, true, 1/2, 2⟩

/-- Witness for C2: on the octagon, dragging node 0 by `(10, 0)` moves the
hop-1 neighbour by `5`, the hop-2 neighbour by `5/2`, and the hop-3 node not
at all. -/
theorem single_selection_falloff_witness :
    (octagonC2.selectedIds = [1] ∧
     indexOfNodeId octagonC2.points 1 = some 0 ∧
     octagonC2.weightEnabled = true ∧
     octagonC2.mirrorEnabled = false) ∧
    (moveSelectedBy octagonC2 10 0).points.get? 1 =
      some ⟨2, 76, 71, none, true⟩ ∧
    (moveSelectedBy octagonC2 10 0).points.get? 2 =
      some ⟨3, 205/2, 0, none, true⟩ ∧
    (moveSelectedBy octagonC2 10 0).points.get? 3 =
      some ⟨4, 71, -71, none, true⟩ :=
  ⟨⟨rfl, by decide, rfl, rfl⟩,
   (single_selection_falloff octagonC2 10 0 1 0 1 rfl (by decide) rfl rfl).trans
     (by norm_num [octagonC2, ringDistance]),
   (single_selection_falloff octagonC2 10 0 1 0 2 rfl (by decide) rfl rfl).trans
     (by norm_num [octagonC2, ringDistance]),
   (single_selection_falloff octagonC2 10 0 1 0 3 rfl (by decide) rfl rfl).trans
     (by norm_num [octagonC2, ringDistance])⟩

/-! ## C3: undo followed by redo restores the state -/

/-- C3: for any history with a non-empty past stack and no open checkpoint,
`undo()` followed by `redo()` restores the full editable state (node array,
selection, pan, zoom, toggles, falloff, max hops, id counter) to deep
equality with the state before the undo. -/
theorem undo_redo_restores (h : History) (cur : EditorState)
    (hpast : h.past ≠ []) (hck : h.checkpoint = none) :
    (histRedo (histUndo h cur).1 (histUndo h cur).2).2 = cur := by
  rcases h with ⟨past, future, ck⟩
  rcases past with _ | ⟨entry, rest⟩
  · exact absurd rfl hpast
  · subst hck
    simp [histUndo, histRedo]

/-- Witness for C3 at a concrete history and state. -/
theorem undo_redo_restores_witness :
    ((⟨[⟨"Move Vertices",
        ⟨[⟨1, 3, 4, none, true⟩], 2, [], 0, 0, 1, false, false, 1/2, 3⟩⟩],
       [], none⟩ : History).past ≠ [] ∧
      (⟨[⟨"Move Vertices",
        ⟨[⟨1, 3, 4, none, true⟩], 2, [], 0, 0, 1, false, false, 1/2, 3⟩⟩],
       [], none⟩ : History).checkpoint = none) ∧
    (histRedo
      (histUndo
        (⟨[⟨"Move Vertices",
          ⟨[⟨1, 3, 4, none, true⟩], 2, [], 0, 0, 1, false, false, 1/2, 3⟩⟩],
         [], none⟩ : History)
        ⟨[⟨1, 7, 9, none, true⟩], 2, [1], 0, 0, 1, false, false, 1/2, 3⟩).1
      (histUndo
        (⟨[⟨"Move Vertices",
          ⟨[⟨1, 3, 4, none, true⟩], 2, [], 0, 0, 1, false, false, 1/2, 3⟩⟩],
         [], none⟩ : History)
        ⟨[⟨1, 7, 9, none, true⟩], 2, [1], 0, 0, 1, false, false, 1/2, 3⟩).2).2 =
      ⟨[⟨1, 7, 9, none, true⟩], 2, [1], 0, 0, 1, false, false, 1/2, 3⟩ :=
  ⟨⟨by decide, rfl⟩, undo_redo_restores _ _ (by decide) rfl⟩

/-! ## C10: `moveSelectedBy` with an unresolvable selection is a no-op -/

/-- C10: calling `moveSelectedBy` when the selection is empty, or when none
of its ids resolves to a live node, leaves the whole state (positions, mirror
links, primary flags, selection) unchanged. -/
theorem move_unresolved_selection_noop (st : EditorState) (dx dy : ℚ)
    (h : getSelectedIndices st = []) : moveSelectedBy st dx dy = st := by
  unfold moveSelectedBy
  by_cases he : st.selectedIds.isEmpty
  · simp [he]
  · simp [he, h]

/-- Witness for C10: a state whose selection holds only a stale id. -/
theorem move_unresolved_selection_noop_witness :
    getSelectedIndices
      ⟨[⟨1, 2, 3, none, true⟩, ⟨2, -2, 3, none, true⟩, ⟨3, 0, -4, none, true⟩],
        4, [9], 0, 0, 1, false, false, 1/2, 3⟩ = [] ∧
    moveSelectedBy
      ⟨[⟨1, 2, 3, none, true⟩, ⟨2, -2, 3, none, true⟩, ⟨3, 0, -4, none, true⟩],
        4, [9], 0, 0, 1, false, false, 1/2, 3⟩ 5 (-7) =
      ⟨[⟨1, 2, 3, none, true⟩, ⟨2, -2, 3, none, true⟩, ⟨3, 0, -4, none, true⟩],
        4, [9], 0, 0, 1, false, false, 1/2, 3⟩ :=
  ⟨by decide, move_unresolved_selection_noop _ 5 (-7) (by decide)⟩

/-! ## C9: interpolation between frames with mismatched layer counts -/

/-- C9: when the two keyframes have different layer counts,
`interpolateBetweenFrames` warns, returns the failure signal `false`, and
leaves the frame list untouched (the inputs, being values, are untouched as
well). -/
theorem interpolate_mismatched_layers_refused (easingFn : ℚ → ℚ)
    (frames : List Frame) (A B : Frame) (numFrames insertIndex : ℕ)
    (h : A.layers.length ≠ B.layers.length) :
    interpolateBetweenFrames easingFn frames A B numFrames insertIndex =
      ⟨false, frames, true⟩ := by
  simp [interpolateBetweenFrames, h]

/-- Witness for C9 at concrete frames (one layer versus two). -/
theorem interpolate_mismatched_layers_refused_witness :
    (Frame.mk [⟨"Layer 1", true, false, []⟩]).layers.length ≠
        (Frame.mk [⟨"Layer 1", true, false, []⟩, ⟨"Layer 2", true, false, []⟩]).layers.length ∧
    interpolateBetweenFrames (fun t => t) [Frame.mk []]
        (Frame.mk [⟨"Layer 1", true, false, []⟩])
        (Frame.mk [⟨"Layer 1", true, false, []⟩, ⟨"Layer 2", true, false, []⟩]) 3 1 =
      ⟨false, [Frame.mk []], true⟩ :=
  ⟨by decide, interpolate_mismatched_layers_refused _ _ _ _ 3 1 (by decide)⟩

/-! ## Well-formed node arrays -/

instance optForallDecidable {α : Type} (o : Option α) (P : α → Prop)
    [DecidablePred P] : Decidable (∀ m, o = some m → P m) :=
  match o with
  | none => isTrue (fun m h => Option.noConfusion h)
  | some a =>
    if h : P a then isTrue (fun m hm => by cases hm; exact h)
    else isFalse (fun hall => h (hall a rfl))

/-- The data-model invariants of the node array (§3 of the spec): ids are
unique; a node with no mirror link is primary; a mirror link resolves to a
distinct node that links back, exactly one of the pair being primary. -/
def WFPoints (pts : List Node) : Prop :=
  (pts.map Node.id).Nodup ∧
  ∀ i : ℕ, ∀ hi : i < pts.length,
    ((pts.get ⟨i, hi⟩).mirrorId = none → (pts.get ⟨i, hi⟩).primary = true) ∧
    ∀ m, (pts.get ⟨i, hi⟩).mirrorId = some m →
      ∃ j ∈ List.range pts.length, j ≠ i ∧
        ∀ b, pts.get? j = some b → b.id = m ∧
          b.mirrorId = some (pts.get ⟨i, hi⟩).id ∧
          b.primary = !(pts.get ⟨i, hi⟩).primary

instance (pts : List Node) : Decidable (WFPoints pts) := by
  unfold WFPoints
  infer_instance

/-- The canonical-selection invariant (§3): every selected live node is the
primary side of its pair. -/
def canonicalSelection (st : EditorState) : Prop :=
  ∀ i : ℕ, ∀ hi : i < st.points.length,
    (st.points.get ⟨i, hi⟩).id ∈ st.selectedIds →
      (st.points.get ⟨i, hi⟩).primary = true

instance (st : EditorState) : Decidable (canonicalSelection st) := by
  unfold canonicalSelection
  infer_instance

/-- Extraction form of the pairing clause of `WFPoints`. -/
theorem WFPoints.partner {pts : List Node} (h : WFPoints pts) {i m : ℕ}
    (hi : i < pts.length) (hm : (pts.get ⟨i, hi⟩).mirrorId = some m) :
    ∃ j, ∃ hj : j < pts.length, j ≠ i ∧ (pts.get ⟨j, hj⟩).id = m ∧
      (pts.get ⟨j, hj⟩).mirrorId = some (pts.get ⟨i, hi⟩).id ∧
      (pts.get ⟨j, hj⟩).primary = !(pts.get ⟨i, hi⟩).primary := by
  obtain ⟨j, hjr, hji, hb⟩ := (h.2 i hi).2 m hm
  have hj : j < pts.length := List.mem_range.mp hjr
  exact ⟨j, hj, hji, hb _ (List.get?_eq_get hj)⟩

/-- Distinct positions hold distinct ids under `WFPoints`. -/
theorem nodup_id_get_inj {pts : List Node}
    (hnd : (pts.map Node.id).Nodup) {i j : ℕ}
    (hi : i < pts.length) (hj : j < pts.length)
    (hid : (pts.get ⟨i, hi⟩).id = (pts.get ⟨j, hj⟩).id) : i = j := by
  have h1 : indexOfNodeId pts (pts.get ⟨i, hi⟩).id = some i :=
    indexOfNodeId_of_get? hnd (List.get?_eq_get hi)
  have h2 : indexOfNodeId pts (pts.get ⟨j, hj⟩).id = some j :=
    indexOfNodeId_of_get? hnd (List.get?_eq_get hj)
  rw [hid, h2] at h1
  exact (Option.some.injEq _ _).mp h1.symm

/-- Setting a position to the value it already holds is the identity. -/
theorem set_get?_self {α : Type} (l : List α) (k : ℕ) (a : α)
    (h : l.get? k = some a) : l.set k a = l := by
  induction l generalizing k with
  | nil => rfl
  | cons b rest ih =>
    rcases k with _ | k
    · rw [List.get?_cons_zero] at h
      cases h
      rfl
    · rw [List.get?_cons_succ] at h
      rw [List.set_cons_succ, ih k h]

/-! ## Ids are preserved by linking and rebuilding -/

theorem linkMirrorPair_map_id (pts : List Node) (i j : ℕ) :
    (linkMirrorPair pts i j).map Node.id = pts.map Node.id := by
  rw [linkMirrorPair]
  cases hp : pts.get? i with
  | none => rfl
  | some p =>
    cases hq : pts.get? j with
    | none => rfl
    | some q =>
      simp only [List.map_set]
      have hpid : (pts.map Node.id).get? i = some p.id := by
        rw [List.get?_map, hp]
        rfl
      rw [set_get?_self _ _ _ hpid]
      have hqid : (pts.map Node.id).get? j = some q.id := by
        rw [List.get?_map, hq]
        rfl
      rw [set_get?_self _ _ _ hqid]

theorem rebuildStep_map_id (acc : List Node × List ℕ) (i : ℕ) :
    (rebuildStep acc i).1.map Node.id = acc.1.map Node.id := by
  rw [rebuildStep]
  cases hp : acc.1.get? i with
  | none => rfl
  | some node =>
    by_cases hu : node.id ∈ acc.2
    · simp [hu]
    · simp only [hu, if_false, ite_false]
      by_cases he : |node.x| ≤ EPS
      · simp [he]
      · simp only [he, if_false, ite_false]
        cases hb : findBestMirror acc.1 acc.2 i node with
        | none => rfl
        | some j =>
          cases hq : acc.1.get? j with
          | none => simp only [hq]
          | some other =>
            simp only [hq]
            exact linkMirrorPair_map_id acc.1 i j

theorem rebuild_fold_map_id (L : List ℕ) (acc : List Node × List ℕ) :
    (L.foldl rebuildStep acc).1.map Node.id = acc.1.map Node.id := by
  induction L generalizing acc with
  | nil => rfl
  | cons a rest ih => rw [List.foldl_cons, ih, rebuildStep_map_id]

theorem rebuildMirrorPairs_map_id (pts : List Node) :
    (rebuildMirrorPairs pts).map Node.id = pts.map Node.id := by
  rw [rebuildMirrorPairs, rebuild_fold_map_id]
  simp [clearMirrorPairs, Function.comp]

/-! ## C5: delete removes exactly the selected ids and their partners -/

/-- The ids the delete handler is supposed to drop: ids in the selection,
plus the mirror-partner id of every selected live node. -/
def deletedId (st : EditorState) (i : ℕ) : Bool :=
  st.selectedIds.contains i ||
    st.points.any (fun a =>
      st.selectedIds.contains a.id && a.mirrorId == some i)

theorem enumFrom_filter_map_snd (rem : List ℕ) (p : Node → Bool) :
    ∀ (pts : List Node) (off : ℕ),
      (∀ k, ∀ hk : k < pts.length,
        rem.contains (off + k) = p (pts.get ⟨k, hk⟩)) →
      ((List.enumFrom off pts).filter (fun q => !(rem.contains q.1))).map
          Prod.snd =
        pts.filter (fun n => !(p n)) := by
  intro pts
  induction pts with
  | nil => intro off _; rfl
  | cons a rest ih =>
    intro off hcond
    have h0 : rem.contains off = p a := by
      have := hcond 0 (by simp)
      simpa using this
    have htail : ∀ k, ∀ hk : k < rest.length,
        rem.contains (off + 1 + k) = p (rest.get ⟨k, hk⟩) := by
      intro k hk
      have := hcond (k + 1) (by simp; omega)
      simpa [Nat.add_assoc, Nat.add_comm 1 k] using this
    rw [List.enumFrom_cons, List.filter_cons, List.filter_cons, h0]
    cases hpa : p a with
    | false => simp only [Bool.not_false, if_pos]; rw [List.map_cons, ih (off + 1) htail]
    | true => simp only [Bool.not_true, if_neg]; exact ih (off + 1) htail

theorem primaryIndexFor_of_primary {pts : List Node} {idx : ℕ} {a : Node}
    (ha : pts.get? idx = some a) (hp : a.primary = true) :
    primaryIndexFor pts idx = some idx := by
  rw [primaryIndexFor, ha]
  simp [hp]

theorem getMirrorIndex_some_elim {pts : List Node} {idx : ℕ} {a : Node}
    (ha : pts.get? idx = some a) :
    getMirrorIndex pts idx = a.mirrorId.bind (indexOfNodeId pts) := by
  rw [getMirrorIndex, ha]
  rcases a with ⟨aid, ax, ay, amir, aprim⟩
  cases amir <;> rfl

/-- Membership in the resolved selected indices. -/
theorem mem_getSelectedIndices_iff (st : EditorState)
    (hnd : (st.points.map Node.id).Nodup) (k : ℕ)
    (hk : k < st.points.length) :
    k ∈ getSelectedIndices st ↔
      (st.points.get ⟨k, hk⟩).id ∈ st.selectedIds := by
  rw [getSelectedIndices]
  constructor
  · intro hmem
    obtain ⟨sid, hsid, hres⟩ := List.mem_filterMap.mp hmem
    obtain ⟨n, hn, hni⟩ := indexOfNodeId_get? hres
    rw [List.get?_eq_get hk] at hn
    cases hn
    rw [hni]
    exact hsid
  · intro hmem
    refine List.mem_filterMap.mpr ⟨(st.points.get ⟨k, hk⟩).id, hmem, ?_⟩
    exact indexOfNodeId_of_get? hnd (List.get?_eq_get hk)

/-- The removal set of the delete handler contains exactly the indices of
nodes whose id is selected or mirror-partnered to a selected node. -/
theorem removal_contains_iff (st : EditorState)
    (hwf : WFPoints st.points) (hcanon : canonicalSelection st)
    (k : ℕ) (hk : k < st.points.length) :
    (removalIndicesOf st).contains k =
      deletedId st (st.points.get ⟨k, hk⟩).id := by
  rw [Bool.eq_iff_iff, List.elem_iff]
  rw [removalIndicesOf, List.mem_dedup, List.mem_append]
  constructor
  · rintro (hsel | hpart)
    · rw [deletedId, Bool.or_eq_true, List.elem_iff]
      exact Or.inl ((mem_getSelectedIndices_iff st hwf.1 k hk).mp hsel)
    · obtain ⟨idx, hidx, hres⟩ := List.mem_filterMap.mp hpart
      cases hpi : primaryIndexFor st.points idx with
      | none => rw [hpi] at hres; exact absurd hres (by simp)
      | some c =>
        rw [hpi, Option.some_bind] at hres
        have hidxlt : idx < st.points.length := by
          obtain ⟨sid, _, hr⟩ := List.mem_filterMap.mp hidx
          exact indexOfNodeId_some_lt hr
        have haid : (st.points.get ⟨idx, hidxlt⟩).id ∈ st.selectedIds :=
          (mem_getSelectedIndices_iff st hwf.1 idx hidxlt).mp hidx
        have hap : (st.points.get ⟨idx, hidxlt⟩).primary = true :=
          hcanon idx hidxlt haid
        have hpidx : primaryIndexFor st.points idx = some idx :=
          primaryIndexFor_of_primary (List.get?_eq_get hidxlt) hap
        rw [hpidx] at hpi
        cases hpi
        rw [getMirrorIndex_some_elim (List.get?_eq_get hidxlt)] at hres
        cases hmir : (st.points.get ⟨idx, hidxlt⟩).mirrorId with
        | none => rw [hmir, Option.none_bind] at hres; exact absurd hres (by simp)
        | some m =>
          rw [hmir, Option.some_bind] at hres
          obtain ⟨b, hb, hbm⟩ := indexOfNodeId_get? hres
          rw [List.get?_eq_get hk] at hb
          cases hb
          rw [deletedId, Bool.or_eq_true, List.any_eq_true]
          refine Or.inr ⟨st.points.get ⟨idx, hidxlt⟩,
            List.get_mem _ _ _, ?_⟩
          rw [Bool.and_eq_true, List.elem_iff, beq_iff_eq]
          exact ⟨haid, by rw [hmir, hbm]⟩
  · intro hdel
    rw [deletedId, Bool.or_eq_true, List.elem_iff, List.any_eq_true] at hdel
    rcases hdel with hsel | ⟨a, hamem, hprop⟩
    · exact Or.inl ((mem_getSelectedIndices_iff st hwf.1 k hk).mpr hsel)
    · rw [Bool.and_eq_true, List.elem_iff, beq_iff_eq] at hprop
      obtain ⟨hasel, hamir⟩ := hprop
      obtain ⟨⟨ia, hia⟩, hget⟩ := List.mem_iff_get.mp hamem
      refine Or.inr (List.mem_filterMap.mpr ⟨ia, ?_, ?_⟩)
      · refine (mem_getSelectedIndices_iff st hwf.1 ia hia).mpr ?_
        rw [hget]
        exact hasel
      · have hap : a.primary = true := by
          have := hcanon ia hia (by rw [hget]; exact hasel)
          rw [hget] at this
          exact this
        have hpidx : primaryIndexFor st.points ia = some ia :=
          primaryIndexFor_of_primary (by rw [List.get?_eq_get hia, hget]) hap
        have hga : st.points.get? ia = some a := by
          rw [List.get?_eq_get hia, hget]
        rw [hpidx, Option.some_bind, getMirrorIndex_some_elim hga, hamir,
          Option.some_bind]
        exact indexOfNodeId_of_get? hwf.1 (List.get?_eq_get hk)

/-- C5: when the delete is permitted (canonical selection, well-formed
nodes), it removes from the node array exactly the ids that are selected or
are the mirror partner of a selected node — no other id disappears; the
selection is cleared, and the resulting array is (by construction) the
spliced array with its mirror pairing rebuilt when mirroring is on (the
id-to-index map of the model is always derived from the array, i.e. rebuilt
before any read). -/
theorem delete_removes_exactly (st : EditorState) (hist : History)
    (hwf : WFPoints st.points) (hcanon : canonicalSelection st)
    (hne : st.selectedIds.isEmpty = false)
    (hperm : 3 ≤ st.points.length - (removalIndicesOf st).length) :
    (deleteSelected st hist).1.points.map Node.id =
      (st.points.map Node.id).filter (fun i => !(deletedId st i)) ∧
    (deleteSelected st hist).1.selectedIds = [] ∧
    (deleteSelected st hist).1.points =
      (if st.mirrorEnabled then
        rebuildMirrorPairs (removeIndices st.points (removalIndicesOf st))
      else removeIndices st.points (removalIndicesOf st)) := by
  have hbody : (deleteSelected st hist).1 =
      { st with
        points :=
          if st.mirrorEnabled then
            rebuildMirrorPairs (removeIndices st.points (removalIndicesOf st))
          else removeIndices st.points (removalIndicesOf st),
        selectedIds := [] } := by
    rw [deleteSelected]
    simp only [hne, Bool.false_eq_true, if_false, if_pos hperm]
  have hremove : (removeIndices st.points (removalIndicesOf st)).map Node.id =
      (st.points.map Node.id).filter (fun i => !(deletedId st i)) := by
    rw [removeIndices]
    have hmain := enumFrom_filter_map_snd (removalIndicesOf st)
      (fun n => deletedId st n.id) st.points 0
      (fun k hk => by
        rw [Nat.zero_add]
        exact removal_contains_iff st hwf hcanon k hk)
    rw [show st.points.enum = List.enumFrom 0 st.points from rfl, hmain,
      List.filter_map]
    rfl
  refine ⟨?_, ?_, ?_⟩
  · rw [hbody]
    by_cases hmir : st.mirrorEnabled
    · simp only [hmir, if_true]
      rw [rebuildMirrorPairs_map_id, hremove]
    · simp only [hmir, Bool.false_eq_true, if_false]
      rw [hremove]
  · rw [hbody]
  · rw [hbody]

/-- Witness for C5: a pentagon with one mirror pair; deleting the selected
primary removes exactly the pair's two ids. -/
theorem delete_removes_exactly_witness :
    (WFPoints
      ([⟨1, 10, 5, some 2, true⟩, ⟨2, -10, 5, some 1, false⟩,
        ⟨3, 0, 9, none, true⟩, ⟨4, 7, -3, none, true⟩,
        ⟨5, -7, -3, none, true⟩] : List Node) ∧
     canonicalSelection
      ⟨[⟨1, 10, 5, some 2, true⟩, ⟨2, -10, 5, some 1, false⟩,
        ⟨3, 0, 9, none, true⟩, ⟨4, 7, -3, none, true⟩,
        ⟨5, -7, -3, none, true⟩], 6, [1], 0, 0, 1, false, false, 1, 3⟩ ∧
     (⟨[⟨1, 10, 5, some 2, true⟩, ⟨2, -10, 5, some 1, false⟩,
        ⟨3, 0, 9, none, true⟩, ⟨4, 7, -3, none, true⟩,
        ⟨5, -7, -3, none, true⟩], 6, [1], 0, 0, 1, false, false, 1, 3⟩ :
          EditorState).selectedIds.isEmpty = false ∧
     3 ≤ (⟨[⟨1, 10, 5, some 2, true⟩, ⟨2, -10, 5, some 1, false⟩,
        ⟨3, 0, 9, none, true⟩, ⟨4, 7, -3, none, true⟩,
        ⟨5, -7, -3, none, true⟩], 6, [1], 0, 0, 1, false, false, 1, 3⟩ :
          EditorState).points.length -
        (removalIndicesOf
          ⟨[⟨1, 10, 5, some 2, true⟩, ⟨2, -10, 5, some 1, false⟩,
            ⟨3, 0, 9, none, true⟩, ⟨4, 7, -3, none, true⟩,
            ⟨5, -7, -3, none, true⟩], 6, [1], 0, 0, 1, false, false, 1, 3⟩).length) ∧
    (deleteSelected
      ⟨[⟨1, 10, 5, some 2, true⟩, ⟨2, -10, 5, some 1, false⟩,
        ⟨3, 0, 9, none, true⟩, ⟨4, 7, -3, none, true⟩,
        ⟨5, -7, -3, none, true⟩], 6, [1], 0, 0, 1, false, false, 1, 3⟩
      ⟨[], [], none⟩).1.points.map Node.id = [3, 4, 5] :=
  ⟨⟨by decide, by decide, by decide, by decide⟩,
   (delete_removes_exactly _ ⟨[], [], none⟩ (by decide) (by decide)
      (by decide) (by decide)).1.trans (by decide)⟩

/-! ## C6: splice lemmas for `insertVertexOnEdge` -/

theorem spliceIn_zero (n : Node) (l : List Node) : spliceIn 0 n l = n :: l := rfl

theorem spliceIn_succ_cons (k : ℕ) (n a : Node) (l : List Node) :
    spliceIn (k + 1) n (a :: l) = a :: spliceIn k n l := rfl

theorem spliceIn_succ_nil (k : ℕ) (n : Node) : spliceIn (k + 1) n [] = [n] := rfl

theorem spliceIn_length (k : ℕ) (n : Node) (l : List Node) :
    (spliceIn k n l).length = l.length + 1 := by
  rw [spliceIn]
  simp only [List.length_append, List.length_take, List.length_cons,
    List.length_drop]
  omega

theorem mem_spliceIn {x n : Node} {k : ℕ} {l : List Node} :
    x ∈ spliceIn k n l ↔ x = n ∨ x ∈ l := by
  rw [spliceIn]
  constructor
  · intro h
    rcases List.mem_append.mp h with h1 | h2
    · exact Or.inr (List.mem_of_mem_take h1)
    · rcases List.mem_cons.mp h2 with h3 | h4
      · exact Or.inl h3
      · exact Or.inr (List.mem_of_mem_drop h4)
  · rintro (rfl | hx)
    · exact List.mem_append.mpr (Or.inr (List.mem_cons_self _ _))
    · rcases List.mem_append.mp (by rw [List.take_append_drop k l]; exact hx :
        x ∈ l.take k ++ l.drop k) with h1 | h2
      · exact List.mem_append.mpr (Or.inl h1)
      · exact List.mem_append.mpr (Or.inr (List.mem_cons_of_mem _ h2))

theorem indexOfNodeId_spliceIn_self {l : List Node} {k : ℕ} {n : Node}
    (hk : k ≤ l.length) (hfresh : ∀ x ∈ l, x.id ≠ n.id) :
    indexOfNodeId (spliceIn k n l) n.id = some k := by
  induction k generalizing l with
  | zero =>
    rw [spliceIn_zero, indexOfNodeId, if_pos rfl]
  | succ k ih =>
    cases l with
    | nil => simp at hk
    | cons a rest =>
      rw [spliceIn_succ_cons, indexOfNodeId,
        if_neg (hfresh a (List.mem_cons_self _ _)),
        ih (by simpa using hk) (fun x hx => hfresh x (List.mem_cons_of_mem _ hx))]
      rfl

theorem indexOfNodeId_spliceIn_other {l : List Node} {k : ℕ} {n : Node}
    {x : ℕ} (hx : x ≠ n.id) (hk : k ≤ l.length) :
    indexOfNodeId (spliceIn k n l) x =
      (indexOfNodeId l x).map (fun j => if j < k then j else j + 1) := by
  induction k generalizing l with
  | zero =>
    rw [spliceIn_zero, indexOfNodeId, if_neg (fun h => hx h.symm)]
    cases indexOfNodeId l x <;> simp
  | succ k ih =>
    cases l with
    | nil => simp at hk
    | cons a rest =>
      rw [spliceIn_succ_cons, indexOfNodeId, indexOfNodeId]
      by_cases ha : a.id = x
      · rw [if_pos ha, if_pos ha]
        simp
      · rw [if_neg ha, if_neg ha,
          ih (by simpa using hk)]
        cases indexOfNodeId rest x with
        | none => rfl
        | some j =>
          simp only [Option.map_some', Option.map_map]
          by_cases hj : j < k
          · simp [Function.comp, hj, Nat.succ_lt_succ hj]
          · have : ¬ (j + 1 < k + 1) := by omega
            simp [Function.comp, hj, this]

theorem spliceIn_set_self {l : List Node} {k : ℕ} (hk : k ≤ l.length)
    (n n' : Node) : (spliceIn k n l).set k n' = spliceIn k n' l := by
  induction k generalizing l with
  | zero => rfl
  | succ k ih =>
    cases l with
    | nil => simp at hk
    | cons a rest =>
      rw [spliceIn_succ_cons, spliceIn_succ_cons, List.set_cons_succ,
        ih (by simpa using hk)]

theorem spliceIn_get?_self {l : List Node} {k : ℕ} (n : Node)
    (hk : k ≤ l.length) : (spliceIn k n l).get? k = some n := by
  induction k generalizing l with
  | zero => rfl
  | succ k ih =>
    cases l with
    | nil => simp at hk
    | cons a rest =>
      rw [spliceIn_succ_cons, List.get?_cons_succ, ih (by simpa using hk)]

theorem spliceIn_get?_lt {l : List Node} {k j : ℕ} (n : Node)
    (hj : j < k) (hk : k ≤ l.length) :
    (spliceIn k n l).get? j = l.get? j := by
  induction j generalizing l k with
  | zero =>
    cases k with
    | zero => omega
    | succ k =>
      cases l with
      | nil => simp at hk
      | cons a rest => rw [spliceIn_succ_cons, List.get?_cons_zero, List.get?_cons_zero]
  | succ j ih =>
    cases k with
    | zero => omega
    | succ k =>
      cases l with
      | nil => simp at hk
      | cons a rest =>
        rw [spliceIn_succ_cons, List.get?_cons_succ, List.get?_cons_succ]
        exact ih (by omega) (by simpa using hk)

theorem spliceIn_get?_gt {l : List Node} {k j : ℕ} (n : Node)
    (hj : k < j) (hk : k ≤ l.length) :
    (spliceIn k n l).get? j = l.get? (j - 1) := by
  induction k generalizing l j with
  | zero =>
    rw [spliceIn_zero]
    cases j with
    | zero => omega
    | succ j => rw [List.get?_cons_succ]; rfl
  | succ k ih =>
    cases l with
    | nil => simp at hk
    | cons a rest =>
      cases j with
      | zero => omega
      | succ j =>
        rw [spliceIn_succ_cons, List.get?_cons_succ,
          ih (by omega) (by simpa using hk)]
        have h1 : 1 ≤ j := by omega
        rw [show j + 1 - 1 = (j - 1) + 1 by omega, List.get?_cons_succ]

theorem map_id_spliceIn (k : ℕ) (n : Node) (l : List Node) :
    (spliceIn k n l).map Node.id =
      (l.map Node.id).take k ++ n.id :: (l.map Node.id).drop k := by
  rw [spliceIn]
  simp [List.map_take, List.map_drop]

theorem filter_map_id_spliceIn (k : ℕ) (n : Node) (l : List Node)
    (q : ℕ → Bool) (hq : q n.id = false) :
    ((spliceIn k n l).map Node.id).filter q = (l.map Node.id).filter q := by
  rw [map_id_spliceIn, List.filter_append, List.filter_cons, hq]
  simp only [Bool.false_eq_true, if_false]
  rw [← List.filter_append, List.take_append_drop]

/-- Full computation of `insertVertexOnEdge` in the mirrored case when the
edge end node is the primary member of a pair: the new node goes in right
after the edge start, the twin goes in right after the mirror partner of the
edge end, both mutually linked from creation, and the trailing
`linkMirrorPair` is the identity because the two nodes are already linked. -/
theorem insertVertexOnEdge_mirror_primary_eq
    (st : EditorState) (edgeIndex : ℕ) (wx wy : ℚ) (e : Node)
    (pid j m1 ni : ℕ)
    (hnd : (st.points.map Node.id).Nodup)
    (hcnt : ∀ x ∈ st.points, x.id < st.nodeIdCounter)
    (hlen : 3 ≤ st.points.length)
    (hm : st.mirrorEnabled = true)
    (hx : |wx| > EPS)
    (hend : st.points.get?
      ((edgeIndex % st.points.length + 1) % st.points.length) = some e)
    (hprim : e.primary = true)
    (hemir : e.mirrorId = some pid)
    (hpid : indexOfNodeId st.points pid = some j)
    (hm1 : m1 = if j < edgeIndex % st.points.length + 1 then j else j + 1)
    (hni : ni = if edgeIndex % st.points.length + 1 < m1 + 1 then
      edgeIndex % st.points.length + 1 else edgeIndex % st.points.length + 2) :
    insertVertexOnEdge st edgeIndex wx wy =
      ({ st with
          points := spliceIn (m1 + 1)
            ⟨st.nodeIdCounter + 1, -wx, wy, some st.nodeIdCounter, false⟩
            (spliceIn (edgeIndex % st.points.length + 1)
              ⟨st.nodeIdCounter, wx, wy, some (st.nodeIdCounter + 1), true⟩
              st.points),
          nodeIdCounter := st.nodeIdCounter + 2 },
       some ni) := by
  have hL : 0 < st.points.length := by omega
  have hes : edgeIndex % st.points.length < st.points.length := Nat.mod_lt _ hL
  have hes1 : edgeIndex % st.points.length + 1 ≤ st.points.length := hes
  have hj : j < st.points.length := indexOfNodeId_some_lt hpid
  have hm1le : m1 ≤ st.points.length := by
    rw [hm1]
    split <;> omega
  obtain ⟨b, hbget, hbid⟩ := indexOfNodeId_get? hpid
  have hbmem : b ∈ st.points := List.get?_mem hbget
  have hpidlt : pid < st.nodeIdCounter := hbid ▸ hcnt b hbmem
  have hfresh1 : ∀ x ∈ st.points, x.id ≠ st.nodeIdCounter :=
    fun x hxx => Nat.ne_of_lt (hcnt x hxx)
  have hpif : primaryIndexFor st.points
      ((edgeIndex % st.points.length + 1) % st.points.length) =
      some ((edgeIndex % st.points.length + 1) % st.points.length) :=
    primaryIndexFor_of_primary hend hprim
  have hgmi : getMirrorIndex st.points
      ((edgeIndex % st.points.length + 1) % st.points.length) = some j := by
    rw [getMirrorIndex_some_elim hend, hemir, Option.some_bind]
    exact hpid
  have hnewIdx : indexOfNodeId
      (spliceIn (edgeIndex % st.points.length + 1)
        ⟨st.nodeIdCounter, wx, wy, none, true⟩ st.points)
      st.nodeIdCounter = some (edgeIndex % st.points.length + 1) :=
    indexOfNodeId_spliceIn_self hes1 hfresh1
  have hpid1 : indexOfNodeId
      (spliceIn (edgeIndex % st.points.length + 1)
        ⟨st.nodeIdCounter, wx, wy, none, true⟩ st.points) pid = some m1 := by
    rw [indexOfNodeId_spliceIn_other (Nat.ne_of_lt hpidlt) hes1, hpid,
      Option.map_some', hm1]
  have hlen1 : (spliceIn (edgeIndex % st.points.length + 1)
      ⟨st.nodeIdCounter, wx, wy, some (st.nodeIdCounter + 1), true⟩
      st.points).length = st.points.length + 1 := spliceIn_length _ _ _
  have hlen1' : m1 + 1 ≤ (spliceIn (edgeIndex % st.points.length + 1)
      ⟨st.nodeIdCounter, wx, wy, some (st.nodeIdCounter + 1), true⟩
      st.points).length := by rw [hlen1]; omega
  have hguard : ¬ (m1 + 1 > st.points.length + 1) := by omega
  have hcntIn1 : indexOfNodeId
      (spliceIn (edgeIndex % st.points.length + 1)
        ⟨st.nodeIdCounter, wx, wy, some (st.nodeIdCounter + 1), true⟩
        st.points) st.nodeIdCounter = some (edgeIndex % st.points.length + 1) :=
    indexOfNodeId_spliceIn_self hes1 hfresh1
  have hcnt2 : indexOfNodeId
      (spliceIn (m1 + 1)
        ⟨st.nodeIdCounter + 1, -wx, wy, some st.nodeIdCounter, false⟩
        (spliceIn (edgeIndex % st.points.length + 1)
          ⟨st.nodeIdCounter, wx, wy, some (st.nodeIdCounter + 1), true⟩
          st.points)) st.nodeIdCounter = some ni := by
    rw [indexOfNodeId_spliceIn_other (by omega : st.nodeIdCounter ≠ st.nodeIdCounter + 1)
        hlen1', hcntIn1, Option.map_some', hni]
  have htwfresh : ∀ x ∈ spliceIn (edgeIndex % st.points.length + 1)
      ⟨st.nodeIdCounter, wx, wy, some (st.nodeIdCounter + 1), true⟩ st.points,
      x.id ≠ st.nodeIdCounter + 1 := by
    intro x hxx
    rcases mem_spliceIn.mp hxx with rfl | hmem
    · exact (by omega : st.nodeIdCounter ≠ st.nodeIdCounter + 1)
    · have := hcnt x hmem
      omega
  have htw2 : indexOfNodeId
      (spliceIn (m1 + 1)
        ⟨st.nodeIdCounter + 1, -wx, wy, some st.nodeIdCounter, false⟩
        (spliceIn (edgeIndex % st.points.length + 1)
          ⟨st.nodeIdCounter, wx, wy, some (st.nodeIdCounter + 1), true⟩
          st.points)) (st.nodeIdCounter + 1) = some (m1 + 1) :=
    indexOfNodeId_spliceIn_self hlen1' htwfresh
  have hget_tw : (spliceIn (m1 + 1)
      ⟨st.nodeIdCounter + 1, -wx, wy, some st.nodeIdCounter, false⟩
      (spliceIn (edgeIndex % st.points.length + 1)
        ⟨st.nodeIdCounter, wx, wy, some (st.nodeIdCounter + 1), true⟩
        st.points)).get? (m1 + 1) =
      some ⟨st.nodeIdCounter + 1, -wx, wy, some st.nodeIdCounter, false⟩ :=
    spliceIn_get?_self _ hlen1'
  have hget_n1 : (spliceIn (m1 + 1)
      ⟨st.nodeIdCounter + 1, -wx, wy, some st.nodeIdCounter, false⟩
      (spliceIn (edgeIndex % st.points.length + 1)
        ⟨st.nodeIdCounter, wx, wy, some (st.nodeIdCounter + 1), true⟩
        st.points)).get? ni =
      some ⟨st.nodeIdCounter, wx, wy, some (st.nodeIdCounter + 1), true⟩ := by
    rw [hni]
    by_cases hcase : edgeIndex % st.points.length + 1 < m1 + 1
    · rw [if_pos hcase, spliceIn_get?_lt _ hcase hlen1']
      exact spliceIn_get?_self _ hes1
    · rw [if_neg hcase, spliceIn_get?_gt _ (by omega) hlen1']
      rw [show edgeIndex % st.points.length + 2 - 1 =
        edgeIndex % st.points.length + 1 by omega]
      exact spliceIn_get?_self _ hes1
  have hlink : linkMirrorPair
      (spliceIn (m1 + 1)
        ⟨st.nodeIdCounter + 1, -wx, wy, some st.nodeIdCounter, false⟩
        (spliceIn (edgeIndex % st.points.length + 1)
          ⟨st.nodeIdCounter, wx, wy, some (st.nodeIdCounter + 1), true⟩
          st.points)) ni (m1 + 1) =
      spliceIn (m1 + 1)
        ⟨st.nodeIdCounter + 1, -wx, wy, some st.nodeIdCounter, false⟩
        (spliceIn (edgeIndex % st.points.length + 1)
          ⟨st.nodeIdCounter, wx, wy, some (st.nodeIdCounter + 1), true⟩
          st.points) := by
    rw [linkMirrorPair, hget_n1, hget_tw]
    dsimp only
    rw [set_get?_self _ _ _ hget_n1, set_get?_self _ _ _ hget_tw]
  rw [insertVertexOnEdge]
  rw [if_neg (by omega : ¬ st.points.length < 3)]
  simp only [hpif, Option.some_bind, hgmi, hbget, Option.map_some', hbid,
    hnewIdx, Option.getD_some, hm, hx, true_and, and_true, if_true, hpid1,
    spliceIn_set_self hes1, spliceIn_length, hguard, if_false, ite_false,
    hcnt2, htw2, hlink]

/-- A symmetric hexagon with mirror pairs (id 2 ↔ id 6) and (id 3 ↔ id 5),
the left-side nodes being the non-primary twins; mirroring enabled. -/
def hexC6 : EditorState :=
  ⟨[⟨1, 0, 10, none, true⟩, ⟨2, 8, 5, some 6, true⟩, ⟨3, 8, -5, some 5, true⟩,
    ⟨4, 0, -10, none, true⟩, ⟨5, -8, -5, some 3, false⟩,
    ⟨6, -8, 5, some 2, false⟩],
   7, [], 0, 0, 1, true, false, 1, 3⟩

/-- C6 fails as stated: inserting on the hexagon's edge `4 → 5` (both
endpoints non-primary twins, insertion point `(-8, 0)` off the axis) places
the twin (id 8) at the very end of the sequence — literally appended — and
not adjacent to the mirrored edge's corresponding endpoint (the mirror
partner of the edge end is id 2 at position 1, whose successor remains
id 3).  The twin is still created at `(−x, y)` and mutually linked. -/
theorem insert_twin_adjacency_counterexample :
    hexC6.mirrorEnabled = true ∧ |(-8 : ℚ)| > EPS ∧
    hexC6.points.get? 5 = some ⟨6, -8, 5, some 2, false⟩ ∧
    (insertVertexOnEdge hexC6 4 (-8) 0).1.points.map Node.id =
      [1, 2, 3, 4, 5, 7, 6, 8] ∧
    ((insertVertexOnEdge hexC6 4 (-8) 0).1.points.map Node.id).get? 2 =
      some 3 := by
  refine ⟨rfl, by rw [EPS]; norm_num, rfl, ?_, ?_⟩ <;>
    norm_num [insertVertexOnEdge, hexC6, EPS, spliceIn, indexOfNodeId,
      primaryIndexFor, getMirrorIndex, linkMirrorPair]

/-- C6 (amended): for every call to `insertVertexOnEdge` with mirroring
enabled, `|x| > ε`, and the edge's end node being the *primary* member of a
mirror pair, a twin with the next fresh id is created at `(−x, y)`, the two
nodes are mutually linked from the start (the trailing `linkMirrorPair` is a
no-op), the twin is inserted immediately after the mirror partner of the edge
end (the mirrored edge's corresponding endpoint), and the ids of all
pre-existing nodes are unchanged.  When the edge end is itself a non-primary
twin, the source resolves the "mirror" through `primaryIndexFor` back to the
edge end itself, so the twin lands right after the edge end — appended at the
end of the sequence in the counterexample — instead of on the mirrored
edge. -/
theorem insert_mirror_twin_amended (st : EditorState) (edgeIndex : ℕ)
    (wx wy : ℚ) (e : Node) (pid j : ℕ)
    (hnd : (st.points.map Node.id).Nodup)
    (hcnt : ∀ x ∈ st.points, x.id < st.nodeIdCounter)
    (hlen : 3 ≤ st.points.length)
    (hm : st.mirrorEnabled = true)
    (hx : |wx| > EPS)
    (hend : st.points.get?
      ((edgeIndex % st.points.length + 1) % st.points.length) = some e)
    (hprim : e.primary = true)
    (hemir : e.mirrorId = some pid)
    (hpid : indexOfNodeId st.points pid = some j) :
    ∃ m' ni,
      indexOfNodeId (insertVertexOnEdge st edgeIndex wx wy).1.points pid =
        some m' ∧
      (insertVertexOnEdge st edgeIndex wx wy).1.points.get? (m' + 1) =
        some ⟨st.nodeIdCounter + 1, -wx, wy, some st.nodeIdCounter, false⟩ ∧
      indexOfNodeId (insertVertexOnEdge st edgeIndex wx wy).1.points
        st.nodeIdCounter = some ni ∧
      (insertVertexOnEdge st edgeIndex wx wy).1.points.get? ni =
        some ⟨st.nodeIdCounter, wx, wy, some (st.nodeIdCounter + 1), true⟩ ∧
      (insertVertexOnEdge st edgeIndex wx wy).2 = some ni ∧
      ((insertVertexOnEdge st edgeIndex wx wy).1.points.map Node.id).filter
          (fun i => !(i == st.nodeIdCounter || i == st.nodeIdCounter + 1)) =
        st.points.map Node.id := by
  have heq := insertVertexOnEdge_mirror_primary_eq st edgeIndex wx wy e pid j
    (if j < edgeIndex % st.points.length + 1 then j else j + 1)
    (if edgeIndex % st.points.length + 1 <
        (if j < edgeIndex % st.points.length + 1 then j else j + 1) + 1 then
      edgeIndex % st.points.length + 1 else edgeIndex % st.points.length + 2)
    hnd hcnt hlen hm hx hend hprim hemir hpid rfl rfl
  set m1 := if j < edgeIndex % st.points.length + 1 then j else j + 1 with hm1
  set ni := if edgeIndex % st.points.length + 1 < m1 + 1 then
    edgeIndex % st.points.length + 1 else edgeIndex % st.points.length + 2
    with hni
  have hL : 0 < st.points.length := by omega
  have hes : edgeIndex % st.points.length < st.points.length := Nat.mod_lt _ hL
  have hes1 : edgeIndex % st.points.length + 1 ≤ st.points.length := hes
  have hj : j < st.points.length := indexOfNodeId_some_lt hpid
  obtain ⟨b, hbget, hbid⟩ := indexOfNodeId_get? hpid
  have hbmem : b ∈ st.points := List.get?_mem hbget
  have hpidlt : pid < st.nodeIdCounter := hbid ▸ hcnt b hbmem
  have hfresh1 : ∀ x ∈ st.points, x.id ≠ st.nodeIdCounter :=
    fun x hxx => Nat.ne_of_lt (hcnt x hxx)
  have hlen1 : (spliceIn (edgeIndex % st.points.length + 1)
      ⟨st.nodeIdCounter, wx, wy, some (st.nodeIdCounter + 1), true⟩
      st.points).length = st.points.length + 1 := spliceIn_length _ _ _
  have hlen1' : m1 + 1 ≤ (spliceIn (edgeIndex % st.points.length + 1)
      ⟨st.nodeIdCounter, wx, wy, some (st.nodeIdCounter + 1), true⟩
      st.points).length := by
    rw [hlen1]
    have : m1 ≤ st.points.length := by rw [hm1]; split <;> omega
    omega
  have hpid1 : indexOfNodeId
      (spliceIn (edgeIndex % st.points.length + 1)
        ⟨st.nodeIdCounter, wx, wy, some (st.nodeIdCounter + 1), true⟩
        st.points) pid = some m1 := by
    rw [indexOfNodeId_spliceIn_other (Nat.ne_of_lt hpidlt) hes1, hpid,
      Option.map_some', hm1]
  have hpid2 : indexOfNodeId
      (spliceIn (m1 + 1)
        ⟨st.nodeIdCounter + 1, -wx, wy, some st.nodeIdCounter, false⟩
        (spliceIn (edgeIndex % st.points.length + 1)
          ⟨st.nodeIdCounter, wx, wy, some (st.nodeIdCounter + 1), true⟩
          st.points)) pid = some m1 := by
    rw [indexOfNodeId_spliceIn_other (by omega : pid ≠ st.nodeIdCounter + 1)
      hlen1', hpid1, Option.map_some', if_pos (by omega : m1 < m1 + 1)]
  have hget_tw : (spliceIn (m1 + 1)
      ⟨st.nodeIdCounter + 1, -wx, wy, some st.nodeIdCounter, false⟩
      (spliceIn (edgeIndex % st.points.length + 1)
        ⟨st.nodeIdCounter, wx, wy, some (st.nodeIdCounter + 1), true⟩
        st.points)).get? (m1 + 1) =
      some ⟨st.nodeIdCounter + 1, -wx, wy, some st.nodeIdCounter, false⟩ :=
    spliceIn_get?_self _ hlen1'
  have hcntIn1 : indexOfNodeId
      (spliceIn (edgeIndex % st.points.length + 1)
        ⟨st.nodeIdCounter, wx, wy, some (st.nodeIdCounter + 1), true⟩
        st.points) st.nodeIdCounter = some (edgeIndex % st.points.length + 1) :=
    indexOfNodeId_spliceIn_self hes1 hfresh1
  have hcnt2 : indexOfNodeId
      (spliceIn (m1 + 1)
        ⟨st.nodeIdCounter + 1, -wx, wy, some st.nodeIdCounter, false⟩
        (spliceIn (edgeIndex % st.points.length + 1)
          ⟨st.nodeIdCounter, wx, wy, some (st.nodeIdCounter + 1), true⟩
          st.points)) st.nodeIdCounter = some ni := by
    rw [indexOfNodeId_spliceIn_other
      (by omega : st.nodeIdCounter ≠ st.nodeIdCounter + 1) hlen1',
      hcntIn1, Option.map_some', hni]
  have hget_n1 : (spliceIn (m1 + 1)
      ⟨st.nodeIdCounter + 1, -wx, wy, some st.nodeIdCounter, false⟩
      (spliceIn (edgeIndex % st.points.length + 1)
        ⟨st.nodeIdCounter, wx, wy, some (st.nodeIdCounter + 1), true⟩
        st.points)).get? ni =
      some ⟨st.nodeIdCounter, wx, wy, some (st.nodeIdCounter + 1), true⟩ := by
    rw [hni]
    by_cases hcase : edgeIndex % st.points.length + 1 < m1 + 1
    · rw [if_pos hcase, spliceIn_get?_lt _ hcase hlen1']
      exact spliceIn_get?_self _ hes1
    · rw [if_neg hcase, spliceIn_get?_gt _ (by omega) hlen1']
      rw [show edgeIndex % st.points.length + 2 - 1 =
        edgeIndex % st.points.length + 1 by omega]
      exact spliceIn_get?_self _ hes1
  have hfilter : ((spliceIn (m1 + 1)
      ⟨st.nodeIdCounter + 1, -wx, wy, some st.nodeIdCounter, false⟩
      (spliceIn (edgeIndex % st.points.length + 1)
        ⟨st.nodeIdCounter, wx, wy, some (st.nodeIdCounter + 1), true⟩
        st.points)).map Node.id).filter
      (fun i => !(i == st.nodeIdCounter || i == st.nodeIdCounter + 1)) =
      st.points.map Node.id := by
    rw [filter_map_id_spliceIn _ _ _ _ (by simp),
      filter_map_id_spliceIn _ _ _ _ (by simp)]
    refine List.filter_eq_self.mpr ?_
    intro x hxmem
    obtain ⟨n, hn, rfl⟩ := List.mem_map.mp hxmem
    have := hcnt n hn
    simp only [Bool.not_eq_true', Bool.or_eq_false_iff, beq_eq_false_iff_ne]
    omega
  refine ⟨m1, ni, ?_, ?_, ?_, ?_, ?_, ?_⟩ <;> rw [heq]
  · exact hpid2
  · exact hget_tw
  · exact hcnt2
  · exact hget_n1
  · exact hfilter

/-- Witness for the amended C6: inserting on the hexagon's edge `0 → 1`
(whose end node id 2 is primary with partner id 6). -/
theorem insert_mirror_twin_amended_witness :
    ((hexC6.points.map Node.id).Nodup ∧
     (∀ x ∈ hexC6.points, x.id < hexC6.nodeIdCounter) ∧
     3 ≤ hexC6.points.length ∧
     hexC6.mirrorEnabled = true ∧
     |(7 : ℚ)| > EPS ∧
     hexC6.points.get?
       ((0 % hexC6.points.length + 1) % hexC6.points.length) =
       some ⟨2, 8, 5, some 6, true⟩ ∧
     (⟨2, 8, 5, some 6, true⟩ : Node).primary = true ∧
     (⟨2, 8, 5, some 6, true⟩ : Node).mirrorId = some 6 ∧
     indexOfNodeId hexC6.points 6 = some 5) ∧
    (∃ m' ni,
      indexOfNodeId (insertVertexOnEdge hexC6 0 7 8).1.points 6 = some m' ∧
      (insertVertexOnEdge hexC6 0 7 8).1.points.get? (m' + 1) =
        some ⟨hexC6.nodeIdCounter + 1, -7, 8, some hexC6.nodeIdCounter, false⟩ ∧
      indexOfNodeId (insertVertexOnEdge hexC6 0 7 8).1.points
        hexC6.nodeIdCounter = some ni ∧
      (insertVertexOnEdge hexC6 0 7 8).1.points.get? ni =
        some ⟨hexC6.nodeIdCounter, 7, 8, some (hexC6.nodeIdCounter + 1), true⟩ ∧
      (insertVertexOnEdge hexC6 0 7 8).2 = some ni ∧
      ((insertVertexOnEdge hexC6 0 7 8).1.points.map Node.id).filter
          (fun i => !(i == hexC6.nodeIdCounter || i == hexC6.nodeIdCounter + 1)) =
        hexC6.points.map Node.id) :=
  ⟨⟨by decide, by decide, by decide, rfl, by rw [EPS]; norm_num, rfl, rfl, rfl,
    by decide⟩,
   insert_mirror_twin_amended hexC6 0 7 8 ⟨2, 8, 5, some 6, true⟩ 6 5
     (by decide) (by decide) (by decide) rfl (by rw [EPS]; norm_num) rfl rfl
     rfl (by decide)⟩

/-- Aligned shape slots: equal type tag, closed flag and vertex count. -/
def shapeAligned (s e : VShape) : Prop :=
  s.type = e.type ∧ s.closed = e.closed ∧
    s.vertices.length = e.vertices.length

/-- Aligned layers: equal metadata and slot-wise aligned shapes (which forces
equal shape counts). -/
def layerAligned (sl el : VLayer) : Prop :=
  sl.name = el.name ∧ sl.visible = el.visible ∧ sl.locked = el.locked ∧
    List.Forall₂ shapeAligned sl.shapes el.shapes

theorem zip_lerp_zero (l1 l2 : List Point2) (h : l1.length = l2.length) :
    (l1.zip l2).map (fun pq =>
      (⟨lerp pq.1.x pq.2.x 0, lerp pq.1.y pq.2.y 0⟩ : Point2)) = l1 := by
  induction l1 generalizing l2 with
  | nil => simp
  | cons a r ih =>
    cases l2 with
    | nil => simp at h
    | cons b r2 =>
      simp only [List.length_cons, Nat.add_right_cancel_iff] at h
      have hx : lerp a.x b.x 0 = a.x := by rw [lerp]; ring
      have hy : lerp a.y b.y 0 = a.y := by rw [lerp]; ring
      rw [List.zip_cons_cons, List.map_cons, ih r2 h, hx, hy]

theorem zip_lerp_one (l1 l2 : List Point2) (h : l1.length = l2.length) :
    (l1.zip l2).map (fun pq =>
      (⟨lerp pq.1.x pq.2.x 1, lerp pq.1.y pq.2.y 1⟩ : Point2)) = l2 := by
  induction l1 generalizing l2 with
  | nil =>
    cases l2 with
    | nil => simp
    | cons b r2 => simp at h
  | cons a r ih =>
    cases l2 with
    | nil => simp at h
    | cons b r2 =>
      simp only [List.length_cons, Nat.add_right_cancel_iff] at h
      have hx : lerp a.x b.x 1 = b.x := by rw [lerp]; ring
      have hy : lerp a.y b.y 1 = b.y := by rw [lerp]; ring
      rw [List.zip_cons_cons, List.map_cons, ih r2 h, hx, hy]

theorem interpolateShape_zero (s e : VShape)
    (h : s.vertices.length = e.vertices.length) :
    interpolateShape s e 0 = s := by
  rw [interpolateShape]
  simp only [h, if_pos]
  rw [zip_lerp_zero s.vertices e.vertices h]

theorem interpolateShape_one (s e : VShape) (ha : shapeAligned s e) :
    interpolateShape s e 1 = e := by
  obtain ⟨ht, hc, h⟩ := ha
  rw [interpolateShape]
  simp only [h, if_pos]
  rw [zip_lerp_one s.vertices e.vertices h, ht, hc]

theorem interpShapes_zero (ss es : List VShape)
    (h : List.Forall₂ shapeAligned ss es) : interpShapes 0 ss es = ss := by
  induction h with
  | nil => rfl
  | cons ha _ ih =>
    rw [interpShapes, interpolateShape_zero _ _ ha.2.2, ih]

theorem interpShapes_one (ss es : List VShape)
    (h : List.Forall₂ shapeAligned ss es) : interpShapes 1 ss es = es := by
  induction h with
  | nil => rfl
  | cons ha _ ih =>
    rw [interpShapes, interpolateShape_one _ _ ha, ih]

theorem interpLayers_zero (ls es : List VLayer)
    (h : List.Forall₂ layerAligned ls es) : interpLayers 0 ls es = some ls := by
  induction h with
  | nil => rfl
  | @cons sl el _ _ ha _ ih =>
    rw [interpLayers, ih]
    have : interpolateLayer sl el 0 = sl := by
      rw [interpolateLayer, interpShapes_zero _ _ ha.2.2.2]
    rw [this]
    rfl

theorem interpLayers_one (ls es : List VLayer)
    (h : List.Forall₂ layerAligned ls es) : interpLayers 1 ls es = some es := by
  induction h with
  | nil => rfl
  | @cons sl el _ _ ha _ ih =>
    rw [interpLayers, ih]
    have : interpolateLayer sl el 1 = el := by
      rw [interpolateLayer, interpShapes_one _ _ ha.2.2.2,
        ha.1, ha.2.1, ha.2.2.1]
    rw [this]
    rfl

/-- C7 fails as stated: take `A` with one empty layer and `B` whose layer
holds one triangle (equal layer counts, shape counts differing at the single
slot).  At `t = 0` the interpolated frame does not deep-equal `A`: it
contains an extra copy of `B`'s shape collapsed onto its centroid `(1, 1)`. -/
theorem interpolation_boundary_counterexample :
    (Frame.mk [⟨"Layer 1", true, false, []⟩]).layers.length =
      (Frame.mk [⟨"Layer 1", true, false,
        [⟨"polygon", [⟨0, 0⟩, ⟨3, 0⟩, ⟨0, 3⟩], true⟩]⟩]).layers.length ∧
    createInterpolatedFrame (Frame.mk [⟨"Layer 1", true, false, []⟩])
        (Frame.mk [⟨"Layer 1", true, false,
          [⟨"polygon", [⟨0, 0⟩, ⟨3, 0⟩, ⟨0, 3⟩], true⟩]⟩]) 0 =
      some (Frame.mk [⟨"Layer 1", true, false,
        [⟨"polygon", [⟨1, 1⟩, ⟨1, 1⟩, ⟨1, 1⟩], true⟩]⟩]) ∧
    createInterpolatedFrame (Frame.mk [⟨"Layer 1", true, false, []⟩])
        (Frame.mk [⟨"Layer 1", true, false,
          [⟨"polygon", [⟨0, 0⟩, ⟨3, 0⟩, ⟨0, 3⟩], true⟩]⟩]) 0 ≠
      some (Frame.mk [⟨"Layer 1", true, false, []⟩]) := by
  refine ⟨rfl, ?_, ?_⟩
  · norm_num [createInterpolatedFrame, interpLayers, interpolateLayer,
      interpShapes, interpolateShapeToNothing]
    rfl
  · intro hc
    rw [createInterpolatedFrame] at hc
    norm_num [interpLayers, interpolateLayer, interpShapes,
      interpolateShapeToNothing] at hc

/-- C7 (amended): when the two keyframes additionally have equal per-layer
shape counts, equal vertex counts in every aligned shape pair, equal layer
metadata and equal shape type/closed tags, `createInterpolatedFrame` at
`t = 0` deep-equals `A` and at `t = 1` deep-equals `B` (up to the ids the
source regenerates, which the model omits).  Without the extra alignment the
boundary frames differ: unmatched shape slots are filled with
centroid-collapsed copies, mismatched vertex counts are resampled to the
larger count, and layer metadata together with each shape's type and closed
flag are always taken from `A`. -/
theorem interpolation_boundary_amended (A B : Frame)
    (h : List.Forall₂ layerAligned A.layers B.layers) :
    createInterpolatedFrame A B 0 = some A ∧
      createInterpolatedFrame A B 1 = some B := by
  constructor
  · rw [createInterpolatedFrame, interpLayers_zero _ _ h]
    rfl
  · rw [createInterpolatedFrame, interpLayers_one _ _ h]
    rfl

/-- Witness for the amended C7 at concrete aligned two-shape frames. -/
theorem interpolation_boundary_amended_witness :
    List.Forall₂ layerAligned
      (Frame.mk [⟨"Layer 1", true, false,
        [⟨"polygon", [⟨0, 0⟩, ⟨4, 0⟩, ⟨0, 4⟩], true⟩]⟩]).layers
      (Frame.mk [⟨"Layer 1", true, false,
        [⟨"polygon", [⟨1, 1⟩, ⟨9, 1⟩, ⟨1, 9⟩], true⟩]⟩]).layers ∧
    createInterpolatedFrame
        (Frame.mk [⟨"Layer 1", true, false,
          [⟨"polygon", [⟨0, 0⟩, ⟨4, 0⟩, ⟨0, 4⟩], true⟩]⟩])
        (Frame.mk [⟨"Layer 1", true, false,
          [⟨"polygon", [⟨1, 1⟩, ⟨9, 1⟩, ⟨1, 9⟩], true⟩]⟩]) 0 =
      some (Frame.mk [⟨"Layer 1", true, false,
        [⟨"polygon", [⟨0, 0⟩, ⟨4, 0⟩, ⟨0, 4⟩], true⟩]⟩]) ∧
    createInterpolatedFrame
        (Frame.mk [⟨"Layer 1", true, false,
          [⟨"polygon", [⟨0, 0⟩, ⟨4, 0⟩, ⟨0, 4⟩], true⟩]⟩])
        (Frame.mk [⟨"Layer 1", true, false,
          [⟨"polygon", [⟨1, 1⟩, ⟨9, 1⟩, ⟨1, 9⟩], true⟩]⟩]) 1 =
      some (Frame.mk [⟨"Layer 1", true, false,
        [⟨"polygon", [⟨1, 1⟩, ⟨9, 1⟩, ⟨1, 9⟩], true⟩]⟩]) := by
  have halig : List.Forall₂ layerAligned
      (Frame.mk [⟨"Layer 1", true, false,
        [⟨"polygon", [⟨0, 0⟩, ⟨4, 0⟩, ⟨0, 4⟩], true⟩]⟩]).layers
      (Frame.mk [⟨"Layer 1", true, false,
        [⟨"polygon", [⟨1, 1⟩, ⟨9, 1⟩, ⟨1, 9⟩], true⟩]⟩]).layers := by
    refine List.Forall₂.cons ⟨rfl, rfl, rfl, ?_⟩ List.Forall₂.nil
    exact List.Forall₂.cons ⟨rfl, rfl, rfl⟩ List.Forall₂.nil
  have hmain := interpolation_boundary_amended _ _ halig
  exact ⟨halig, hmain.1, hmain.2⟩

/-! ## C1: the mirror symmetry invariant

`applyMirrorConstraints` only writes coordinates; ids, mirror links and
primary flags are untouched.  The proofs below track that "structure"
separately from the coordinates. -/

/-- The coordinate-free part of a node. -/
def nodeStruct (n : Node) : ℕ × Option ℕ × Bool := (n.id, n.mirrorId, n.primary)

/-- Two node arrays with the same ids, links and flags everywhere. -/
def sameStructure (p q : List Node) : Prop :=
  p.map nodeStruct = q.map nodeStruct

theorem sameStructure.length_eq {p q : List Node} (h : sameStructure p q) :
    p.length = q.length := by
  have := congrArg List.length h
  simpa using this

theorem sameStructure.map_id_eq {p q : List Node} (h : sameStructure p q) :
    p.map Node.id = q.map Node.id := by
  have := congrArg (List.map Prod.fst) h
  simpa [List.map_map, Function.comp, nodeStruct] using this

theorem sameStructure.get?_eq {p q : List Node} (h : sameStructure p q)
    (i : ℕ) : (p.get? i).map nodeStruct = (q.get? i).map nodeStruct := by
  have hp : (p.map nodeStruct).get? i = (p.get? i).map nodeStruct := by
    rw [List.get?_eq_getElem?, List.get?_eq_getElem?, List.getElem?_map]
  have hq : (q.map nodeStruct).get? i = (q.get? i).map nodeStruct := by
    rw [List.get?_eq_getElem?, List.get?_eq_getElem?, List.getElem?_map]
  rw [← hp, ← hq, h]

/-- Unpacked form of `sameStructure.get?_eq`. -/
theorem sameStructure.get?_fields {p q : List Node} (h : sameStructure p q)
    {i : ℕ} {a : Node} (ha : p.get? i = some a) :
    ∃ b, q.get? i = some b ∧ b.id = a.id ∧ b.mirrorId = a.mirrorId ∧
      b.primary = a.primary := by
  have := h.get?_eq i
  rw [ha, Option.map_some'] at this
  cases hb : q.get? i with
  | none => rw [hb] at this; exact absurd this (by simp)
  | some b =>
    rw [hb, Option.map_some'] at this
    have hs : nodeStruct b = nodeStruct a := by
      exact Option.some.inj this.symm
    rw [nodeStruct, nodeStruct] at hs
    exact ⟨b, rfl, congrArg Prod.fst hs,
      congrArg (Prod.fst ∘ Prod.snd) hs, congrArg (Prod.snd ∘ Prod.snd) hs⟩

theorem indexOfNodeId_congr {p q : List Node} (h : sameStructure p q)
    (x : ℕ) : indexOfNodeId p x = indexOfNodeId q x := by
  induction p generalizing q with
  | nil =>
    cases q with
    | nil => rfl
    | cons b qs => exact absurd h (by simp [sameStructure, nodeStruct])
  | cons a ps ih =>
    cases q with
    | nil => exact absurd h (by simp [sameStructure, nodeStruct])
    | cons b qs =>
      rw [sameStructure, List.map_cons, List.map_cons] at h
      have hhead : nodeStruct a = nodeStruct b := by
        exact (List.cons.injEq _ _ _ _ ▸ h).1
      have hid : a.id = b.id := congrArg Prod.fst hhead
      have htail : sameStructure ps qs := by
        exact (List.cons.injEq _ _ _ _ ▸ h).2
      rw [indexOfNodeId, indexOfNodeId, hid, ih htail]

theorem primaryIndexFor_congr {p q : List Node} (h : sameStructure p q)
    (idx : ℕ) : primaryIndexFor p idx = primaryIndexFor q idx := by
  rw [primaryIndexFor, primaryIndexFor]
  cases ha : p.get? idx with
  | none =>
    have := h.get?_eq idx
    rw [ha] at this
    cases hb : q.get? idx with
    | none => rfl
    | some b => rw [hb] at this; exact absurd this (by simp)
  | some a =>
    obtain ⟨b, hb, hbid, hbmir, hbprim⟩ := h.get?_fields ha
    rw [hb]
    simp only [hbmir, hbprim, indexOfNodeId_congr h]

theorem getMirrorIndex_congr {p q : List Node} (h : sameStructure p q)
    (idx : ℕ) : getMirrorIndex p idx = getMirrorIndex q idx := by
  cases ha : p.get? idx with
  | none =>
    have hstr := h.get?_eq idx
    rw [ha] at hstr
    cases hb : q.get? idx with
    | none => rw [getMirrorIndex, getMirrorIndex, ha, hb]
    | some b => rw [hb] at hstr; exact absurd hstr (by simp)
  | some a =>
    obtain ⟨b, hb, hbid, hbmir, hbprim⟩ := h.get?_fields ha
    rw [getMirrorIndex_some_elim ha, getMirrorIndex_some_elim hb, hbmir]
    cases a.mirrorId with
    | none => rfl
    | some m =>
      rw [Option.some_bind, Option.some_bind]
      exact indexOfNodeId_congr h m

/-- A coordinate-only write preserves the structure. -/
theorem sameStructure_set {p : List Node} {k : ℕ} {a a' : Node}
    (ha : p.get? k = some a) (hid : a'.id = a.id)
    (hmir : a'.mirrorId = a.mirrorId) (hprim : a'.primary = a.primary) :
    sameStructure (p.set k a') p := by
  rw [sameStructure, List.map_set]
  apply set_get?_self
  rw [List.get?_eq_getElem?, List.getElem?_map, ← List.get?_eq_getElem?, ha,
    Option.map_some']
  rw [nodeStruct, nodeStruct, hid, hmir, hprim]

theorem sameStructure.rfl (p : List Node) : sameStructure p p := Eq.refl _

theorem sameStructure.trans {p q r : List Node} (h1 : sameStructure p q)
    (h2 : sameStructure q r) : sameStructure p r := Eq.trans h1 h2

theorem sameStructure.symm {p q : List Node} (h : sameStructure p q) :
    sameStructure q p := Eq.symm h

/-- Displacement only writes coordinates. -/
theorem displacePoints_struct (pts : List Node) (w : ℕ → ℚ) (dx dy : ℚ) :
    sameStructure (displacePoints pts w dx dy) pts := by
  rw [sameStructure, displacePoints, List.mapIdx_eq_enum_map,
    List.map_map]
  have : pts.map nodeStruct = pts.enum.map (nodeStruct ∘ Prod.snd) := by
    rw [← List.map_map, List.enum_map_snd]
  rw [this]
  apply List.map_congr_left
  intro zz _
  rcases zz with ⟨i, n⟩
  by_cases hw : w i = 0 <;>
    simp [Function.comp, Function.uncurry, nodeStruct, hw]

/-- `WFPoints` only depends on the structure. -/
theorem WFPoints_congr {p q : List Node} (h : sameStructure p q)
    (hwf : WFPoints q) : WFPoints p := by
  constructor
  · rw [h.map_id_eq]
    exact hwf.1
  · intro i hi
    have hiq : i < q.length := by rw [← h.length_eq]; exact hi
    obtain ⟨b, hb, hbid, hbmir, hbprim⟩ :=
      h.get?_fields (List.get?_eq_get hi)
    rw [List.get?_eq_get hiq] at hb
    cases hb
    constructor
    · intro hmn
      have h1 := (hwf.2 i hiq).1 (by rw [hbmir]; exact hmn)
      rw [← hbprim]
      exact h1
    · intro m hm
      obtain ⟨j, hjr, hji, hrest⟩ := (hwf.2 i hiq).2 m
        (by rw [hbmir]; exact hm)
      have hjq : j < q.length := List.mem_range.mp hjr
      have hjp : j < p.length := by rw [h.length_eq]; exact hjq
      refine ⟨j, List.mem_range.mpr hjp, hji, ?_⟩
      intro c hc
      obtain ⟨d, hd, hdid, hdmir, hdprim⟩ := h.get?_fields hc
      obtain ⟨hd1, hd2, hd3⟩ := hrest d hd
      refine ⟨by rw [← hdid]; exact hd1, ?_, ?_⟩
      · rw [← hdmir, hd2, hbid]
      · rw [← hdprim, hd3, hbprim]

/-! ## The symmetry predicate -/

/-- Every linked pair is geometrically symmetric: if node `i` names node `j`
as its mirror, then `j` sits at `(−xᵢ, yᵢ)`. -/
def SymmPairs (pts : List Node) : Prop :=
  ∀ i : ℕ, ∀ hi : i < pts.length, ∀ j : ℕ, ∀ hj : j < pts.length,
    (pts.get ⟨i, hi⟩).mirrorId = some ((pts.get ⟨j, hj⟩).id) →
    ((pts.get ⟨j, hj⟩).x = -(pts.get ⟨i, hi⟩).x ∧
     (pts.get ⟨j, hj⟩).y = (pts.get ⟨i, hi⟩).y)

instance (pts : List Node) : Decidable (SymmPairs pts) := by
  unfold SymmPairs
  infer_instance

/-- Case analysis of one `applyMirrorConstraints` iteration: either it skips,
or it writes a symmetric pair of coordinate-only updates at the canonical
index and its partner and marks both ids processed.  All four selection cases
produce `partner = (−primary.x, primary.y)` in the written values. -/
theorem mirrorStep_cases (sel : List ℕ) (s : List Node × List ℕ) (a : ℕ) :
    mirrorStep sel s a = s ∨
    ∃ c pIdx primary partner P Q,
      mirrorStep sel s a =
        ((s.1.set c P).set pIdx Q, primary.id :: partner.id :: s.2) ∧
      primaryIndexFor s.1 a = some c ∧
      s.1.get? c = some primary ∧
      primary.id ∉ s.2 ∧
      getMirrorIndex s.1 c = some pIdx ∧
      s.1.get? pIdx = some partner ∧
      Q.x = -P.x ∧ Q.y = P.y ∧
      P.id = primary.id ∧ P.mirrorId = primary.mirrorId ∧
      P.primary = primary.primary ∧
      Q.id = partner.id ∧ Q.mirrorId = partner.mirrorId ∧
      Q.primary = partner.primary := by
  cases hpi : primaryIndexFor s.1 a with
  | none => left; rw [mirrorStep]; simp only [hpi]
  | some c =>
    cases hgc : s.1.get? c with
    | none => left; rw [mirrorStep]; simp only [hpi, hgc]
    | some primary =>
      by_cases hproc : primary.id ∈ s.2
      · left
        rw [mirrorStep]
        simp only [hpi, hgc, hproc, if_true]
      · cases hgm : getMirrorIndex s.1 c with
        | none =>
          left
          rw [mirrorStep]
          simp only [hpi, hgc, hproc, if_false, hgm, ite_false]
        | some pIdx =>
          cases hgp : s.1.get? pIdx with
          | none =>
            left
            rw [mirrorStep]
            simp only [hpi, hgc, hproc, if_false, hgm, hgp, ite_false]
          | some partner =>
            right
            by_cases hb1 : sel.contains primary.id
            · by_cases hb2 : sel.contains partner.id
              · -- both selected: averaging case
                have hstep : mirrorStep sel s a =
                    ((s.1.set c { primary with
                        x := (|primary.x| + |partner.x|) / 2 *
                          (if primary.x ≥ 0 then 1 else -1),
                        y := (primary.y + partner.y) / 2 }).set pIdx
                      { partner with
                        x := -((|primary.x| + |partner.x|) / 2 *
                          (if primary.x ≥ 0 then 1 else -1)),
                        y := (primary.y + partner.y) / 2 },
                      primary.id :: partner.id :: s.2) := by
                  rw [mirrorStep]
                  simp only [hpi, hgc, hproc, hgm, hgp, hb1, hb2,
                    eq_self_iff_true, not_true, true_and, and_true, and_false,
                    false_and, if_true, ite_true, if_false, ite_false,
                    not_false_iff, Bool.false_eq_true, not_false_eq_true]
                exact ⟨c, pIdx, primary, partner, _, _, hstep, rfl, hgc,
                  hproc, hgm, hgp, rfl, rfl, rfl, rfl, rfl, rfl, rfl, rfl⟩
              · -- only the primary is selected
                have hstep : mirrorStep sel s a =
                    ((s.1.set c primary).set pIdx
                      { partner with x := -primary.x, y := primary.y },
                      primary.id :: partner.id :: s.2) := by
                  rw [mirrorStep]
                  simp only [hpi, hgc, hproc, hgm, hgp, hb1, hb2,
                    eq_self_iff_true, not_true, true_and, and_true, and_false,
                    false_and, if_true, ite_true, if_false, ite_false,
                    not_false_iff, Bool.false_eq_true, not_false_eq_true]
                exact ⟨c, pIdx, primary, partner, _, _, hstep, rfl, hgc,
                  hproc, hgm, hgp, rfl, rfl, rfl, rfl, rfl, rfl, rfl, rfl⟩
            · by_cases hb2 : sel.contains partner.id
              · -- only the partner is selected
                have hstep : mirrorStep sel s a =
                    ((s.1.set c
                        { primary with x := -partner.x, y := partner.y }).set
                      pIdx partner,
                      primary.id :: partner.id :: s.2) := by
                  rw [mirrorStep]
                  simp only [hpi, hgc, hproc, hgm, hgp, hb1, hb2,
                    eq_self_iff_true, not_true, true_and, and_true, and_false,
                    false_and, if_true, ite_true, if_false, ite_false,
                    not_false_iff, Bool.false_eq_true, not_false_eq_true]
                exact ⟨c, pIdx, primary, partner, _, _, hstep, rfl, hgc,
                  hproc, hgm, hgp, (neg_neg partner.x).symm, rfl, rfl, rfl,
                  rfl, rfl, rfl, rfl⟩
              · -- neither side selected: primary wins
                have hstep : mirrorStep sel s a =
                    ((s.1.set c primary).set pIdx
                      { partner with x := -primary.x, y := primary.y },
                      primary.id :: partner.id :: s.2) := by
                  rw [mirrorStep]
                  simp only [hpi, hgc, hproc, hgm, hgp, hb1, hb2,
                    eq_self_iff_true, not_true, true_and, and_true, and_false,
                    false_and, if_true, ite_true, if_false, ite_false,
                    not_false_iff, Bool.false_eq_true, not_false_eq_true]
                exact ⟨c, pIdx, primary, partner, _, _, hstep, rfl, hgc,
                  hproc, hgm, hgp, rfl, rfl, rfl, rfl, rfl, rfl, rfl, rfl⟩

/-- Invariant carried through the `applyMirrorConstraints` fold, relative to
the displaced array `base`: the structure is untouched, processed ids come in
mutually-processed pairs, every pair whose primary id is processed is already
symmetric, and unprocessed nodes still hold their `base` coordinates. -/
structure MirrorInv (base : List Node) (s : List Node × List ℕ) : Prop where
  struct : sameStructure s.1 base
  closure : ∀ i : ℕ, ∀ a : Node, s.1.get? i = some a → a.id ∈ s.2 →
    ∃ m, a.mirrorId = some m ∧ m ∈ s.2
  procSym : ∀ i j : ℕ, ∀ a b : Node, s.1.get? i = some a →
    s.1.get? j = some b → a.mirrorId = some b.id → a.id ∈ s.2 →
    (b.x = -a.x ∧ b.y = a.y)
  unproc : ∀ i : ℕ, ∀ a b : Node, s.1.get? i = some a →
    base.get? i = some b → a.id ∉ s.2 → (a.x = b.x ∧ a.y = b.y)

theorem mirrorInv_init (base : List Node) : MirrorInv base (base, []) where
  struct := sameStructure.rfl base
  closure := fun _ _ _ hmem => absurd hmem (List.not_mem_nil _)
  procSym := fun _ _ _ _ _ _ _ hmem => absurd hmem (List.not_mem_nil _)
  unproc := fun i a b ha hb _ => by
    rw [ha] at hb
    cases hb
    exact ⟨rfl, rfl⟩

theorem mirrorStep_mono (sel : List ℕ) (s : List Node × List ℕ) (a : ℕ) :
    ∀ x ∈ s.2, x ∈ (mirrorStep sel s a).2 := by
  intro x hx
  rcases mirrorStep_cases sel s a with heq |
    ⟨c, pIdx, primary, partner, P, Q, hstep, _⟩
  · rw [heq]; exact hx
  · rw [hstep]
    exact List.mem_cons_of_mem _ (List.mem_cons_of_mem _ hx)

theorem mirrorStep_covers (sel : List ℕ) (s : List Node × List ℕ)
    (e c pIdx : ℕ) (primary partner : Node)
    (hpi : primaryIndexFor s.1 e = some c)
    (hgc : s.1.get? c = some primary)
    (hgm : getMirrorIndex s.1 c = some pIdx)
    (hgp : s.1.get? pIdx = some partner) :
    primary.id ∈ (mirrorStep sel s e).2 := by
  rw [mirrorStep]
  simp only [hpi, hgc, hgm, hgp]
  by_cases hproc : primary.id ∈ s.2
  · simp only [hproc, if_true]
  · simp only [hproc, if_false, ite_false]
    exact List.mem_cons_self _ _

/-- One constraint iteration preserves the invariant. -/
theorem mirrorStep_preserves (base : List Node) (hwf : WFPoints base)
    (sel : List ℕ) (s : List Node × List ℕ) (a : ℕ)
    (hinv : MirrorInv base s) : MirrorInv base (mirrorStep sel s a) := by
  rcases mirrorStep_cases sel s a with heq |
    ⟨c, pIdx, primary, partner, P, Q, hstep, hpi, hgc, hproc, hgm, hgp,
      hQx, hQy, hPid, hPmir, hPprim, hQid, hQmir, hQprim⟩
  · rw [heq]; exact hinv
  · have hnd1 : (s.1.map Node.id).Nodup := by
      rw [hinv.struct.map_id_eq]; exact hwf.1
    have hclt : c < s.1.length := by
      by_contra hge
      rw [List.get?_eq_none.mpr (Nat.le_of_not_lt hge)] at hgc
      exact Option.noConfusion hgc
    have hplt : pIdx < s.1.length := by
      by_contra hge
      rw [List.get?_eq_none.mpr (Nat.le_of_not_lt hge)] at hgp
      exact Option.noConfusion hgp
    obtain ⟨m0, hm0, hres0⟩ :
        ∃ m0, primary.mirrorId = some m0 ∧ indexOfNodeId s.1 m0 = some pIdx := by
      have hh := hgm
      rw [getMirrorIndex_some_elim hgc] at hh
      cases hmm : primary.mirrorId with
      | none => rw [hmm, Option.none_bind] at hh; exact Option.noConfusion hh
      | some m0 =>
        rw [hmm, Option.some_bind] at hh
        exact ⟨m0, rfl, hh⟩
    have hpartner_id : partner.id = m0 := by
      obtain ⟨b0, hb0, hb0id⟩ := indexOfNodeId_get? hres0
      rw [hgp] at hb0
      cases hb0
      exact hb0id
    have hm_eq : primary.mirrorId = some partner.id := by
      rw [hm0, hpartner_id]
    have hkey : partner.mirrorId = some primary.id ∧ c ≠ pIdx := by
      obtain ⟨cb, hcb, hcbid, hcbmir, hcbprim⟩ :=
        hinv.struct.get?_fields hgc
      obtain ⟨pb, hpb, hpbid, hpbmir, hpbprim⟩ :=
        hinv.struct.get?_fields hgp
      have hcblt : c < base.length := by
        rw [← hinv.struct.length_eq]; exact hclt
      have hcbget : base.get ⟨c, hcblt⟩ = cb := by
        have hh := hcb
        rw [List.get?_eq_get hcblt] at hh
        exact Option.some.inj hh
      obtain ⟨j, hj, hji, hjid, hjmir, hjprim⟩ := hwf.partner hcblt
        (by rw [hcbget, hcbmir, hm0] : (base.get ⟨c, hcblt⟩).mirrorId = some m0)
      have hjres : indexOfNodeId base m0 = some j := by
        have hh := indexOfNodeId_of_get? hwf.1 (List.get?_eq_get hj)
        rw [hjid] at hh
        exact hh
      have hres0' : indexOfNodeId base m0 = some pIdx := by
        rw [← indexOfNodeId_congr hinv.struct m0]
        exact hres0
      have hjp : j = pIdx := by
        rw [hjres] at hres0'
        exact Option.some.inj hres0'
      have hpb2 : base.get? j = some pb := by rw [hjp]; exact hpb
      have hgetj : base.get ⟨j, hj⟩ = pb := by
        have hh := hpb2
        rw [List.get?_eq_get hj] at hh
        exact Option.some.inj hh
      constructor
      · rw [← hpbmir, ← hgetj, hjmir, hcbget, hcbid]
      · rw [← hjp]; exact Ne.symm hji
    obtain ⟨hmut, hcp_ne⟩ := hkey
    have hpartner_nproc : partner.id ∉ s.2 := by
      intro hmem
      obtain ⟨m', hm', hm'mem⟩ := hinv.closure pIdx partner hgp hmem
      rw [hmut] at hm'
      cases hm'
      exact hproc hm'mem
    have hr_c : ((s.1.set c P).set pIdx Q).get? c = some P := by
      rw [List.get?_eq_getElem?, List.getElem?_set, if_neg (Ne.symm hcp_ne),
        List.getElem?_set, if_pos rfl, if_pos hclt]
    have hr_p : ((s.1.set c P).set pIdx Q).get? pIdx = some Q := by
      rw [List.get?_eq_getElem?, List.getElem?_set, if_pos rfl,
        if_pos (by rw [List.length_set]; exact hplt)]
    have hr_other : ∀ k, k ≠ c → k ≠ pIdx →
        ((s.1.set c P).set pIdx Q).get? k = s.1.get? k := by
      intro k hkc hkp
      rw [List.get?_eq_getElem?, List.getElem?_set,
        if_neg (fun h => hkp h.symm), List.getElem?_set,
        if_neg (fun h => hkc h.symm), ← List.get?_eq_getElem?]
    have hstruct_r : sameStructure ((s.1.set c P).set pIdx Q) base := by
      have h1 : sameStructure (s.1.set c P) s.1 :=
        sameStructure_set hgc hPid hPmir hPprim
      have h2 : (s.1.set c P).get? pIdx = some partner := by
        rw [List.get?_eq_getElem?, List.getElem?_set, if_neg hcp_ne,
          ← List.get?_eq_getElem?]
        exact hgp
      have h3 : sameStructure ((s.1.set c P).set pIdx Q) (s.1.set c P) :=
        sameStructure_set h2 hQid hQmir hQprim
      exact (h3.trans h1).trans hinv.struct
    have hnd_r : (((s.1.set c P).set pIdx Q).map Node.id).Nodup := by
      rw [hstruct_r.map_id_eq]; exact hwf.1
    have hid_inj_r : ∀ i k x y, ((s.1.set c P).set pIdx Q).get? i = some x →
        ((s.1.set c P).set pIdx Q).get? k = some y → x.id = y.id → i = k := by
      intro i k x y hxg hyg hxy
      have h1 := indexOfNodeId_of_get? hnd_r hxg
      have h2 := indexOfNodeId_of_get? hnd_r hyg
      rw [hxy, h2] at h1
      exact (Option.some.inj h1).symm
    have hid_inj1 : ∀ i k x y, s.1.get? i = some x → s.1.get? k = some y →
        x.id = y.id → i = k := by
      intro i k x y hxg hyg hxy
      have h1 := indexOfNodeId_of_get? hnd1 hxg
      have h2 := indexOfNodeId_of_get? hnd1 hyg
      rw [hxy, h2] at h1
      exact (Option.some.inj h1).symm
    rw [hstep]
    refine ⟨hstruct_r, ?_, ?_, ?_⟩
    · -- closure
      intro i x hx hxmem
      by_cases hic : i = c
      · subst hic
        rw [hr_c] at hx
        cases hx
        refine ⟨partner.id, by rw [hPmir, hm_eq], ?_⟩
        exact List.mem_cons_of_mem _ (List.mem_cons_self _ _)
      · by_cases hip : i = pIdx
        · subst hip
          rw [hr_p] at hx
          cases hx
          exact ⟨primary.id, by rw [hQmir, hmut], List.mem_cons_self _ _⟩
        · rw [hr_other i hic hip] at hx
          rcases List.mem_cons.mp hxmem with h1 | hrest
          · exact absurd (hid_inj1 i c x primary hx hgc h1) hic
          rcases List.mem_cons.mp hrest with h2 | h3
          · exact absurd (hid_inj1 i pIdx x partner hx hgp h2) hip
          · obtain ⟨m, hm, hmmem⟩ := hinv.closure i x hx h3
            exact ⟨m, hm,
              List.mem_cons_of_mem _ (List.mem_cons_of_mem _ hmmem)⟩
    · -- processed pairs are symmetric
      intro i j x y hx hy hlink hxmem
      by_cases hic : i = c
      · subst hic
        rw [hr_c] at hx
        cases hx
        have hyid : y.id = partner.id := by
          rw [hPmir, hm_eq] at hlink
          exact (Option.some.inj hlink).symm
        have hjp : j = pIdx := hid_inj_r j pIdx y Q hy hr_p (by rw [hyid, hQid])
        subst hjp
        rw [hr_p] at hy
        cases hy
        exact ⟨hQx, hQy⟩
      · by_cases hip : i = pIdx
        · subst hip
          rw [hr_p] at hx
          cases hx
          have hyid : y.id = primary.id := by
            rw [hQmir, hmut] at hlink
            exact (Option.some.inj hlink).symm
          have hjc : j = c := hid_inj_r j c y P hy hr_c (by rw [hyid, hPid])
          subst hjc
          rw [hr_c] at hy
          cases hy
          constructor
          · rw [hQx, neg_neg]
          · exact hQy.symm
        · rw [hr_other i hic hip] at hx
          rcases List.mem_cons.mp hxmem with h1 | hrest
          · exact absurd (hid_inj1 i c x primary hx hgc h1) hic
          rcases List.mem_cons.mp hrest with h2 | h3
          · exact absurd (hid_inj1 i pIdx x partner hx hgp h2) hip
          · obtain ⟨m, hm, hmmem⟩ := hinv.closure i x hx h3
            have hyid : y.id = m := by
              rw [hm] at hlink
              exact (Option.some.inj hlink).symm
            have hjc : j ≠ c := by
              intro hcontra
              subst hcontra
              rw [hr_c] at hy
              cases hy
              rw [hPid] at hyid
              rw [← hyid] at hmmem
              exact hproc hmmem
            have hjp : j ≠ pIdx := by
              intro hcontra
              subst hcontra
              rw [hr_p] at hy
              cases hy
              rw [hQid] at hyid
              rw [← hyid] at hmmem
              exact hpartner_nproc hmmem
            rw [hr_other j hjc hjp] at hy
            exact hinv.procSym i j x y hx hy hlink h3
    · -- unprocessed nodes keep the base coordinates
      intro i x b hx hb hnmem
      have hx_ne1 : x.id ≠ primary.id := fun h =>
        hnmem (h ▸ List.mem_cons_self _ _)
      have hx_ne2 : x.id ≠ partner.id := fun h =>
        hnmem (h ▸ List.mem_cons_of_mem _ (List.mem_cons_self _ _))
      have hx_nmem : x.id ∉ s.2 := fun h =>
        hnmem (List.mem_cons_of_mem _ (List.mem_cons_of_mem _ h))
      have hic : i ≠ c := by
        intro hcontra
        subst hcontra
        rw [hr_c] at hx
        cases hx
        exact hx_ne1 hPid
      have hip : i ≠ pIdx := by
        intro hcontra
        subst hcontra
        rw [hr_p] at hx
        cases hx
        exact hx_ne2 hQid
      rw [hr_other i hic hip] at hx
      exact hinv.unproc i x b hx hb hx_nmem

theorem foldl_mirror_preserves (base : List Node) (hwf : WFPoints base)
    (sel : List ℕ) (L : List ℕ) (s : List Node × List ℕ)
    (hinv : MirrorInv base s) :
    MirrorInv base (L.foldl (mirrorStep sel) s) := by
  induction L generalizing s with
  | nil => exact hinv
  | cons x rest ih =>
    exact ih _ (mirrorStep_preserves base hwf sel s x hinv)

theorem foldl_mirror_mono (sel : List ℕ) (L : List ℕ)
    (s : List Node × List ℕ) :
    ∀ x ∈ s.2, x ∈ (L.foldl (mirrorStep sel) s).2 := by
  induction L generalizing s with
  | nil => exact fun x hx => hx
  | cons e rest ih =>
    intro x hx
    exact ih _ x (mirrorStep_mono sel s e x hx)

theorem foldl_mirror_covers (base : List Node) (hwf : WFPoints base)
    (sel : List ℕ) (L : List ℕ) (s : List Node × List ℕ)
    (hinv : MirrorInv base s) (e : ℕ) (he : e ∈ L)
    (c pIdx : ℕ) (primaryB : Node)
    (hc : primaryIndexFor base e = some c)
    (hgcB : base.get? c = some primaryB)
    (hgmB : getMirrorIndex base c = some pIdx) :
    primaryB.id ∈ (L.foldl (mirrorStep sel) s).2 := by
  induction L generalizing s with
  | nil => cases he
  | cons x rest ih =>
    rw [List.foldl_cons]
    rcases List.mem_cons.mp he with rfl | hmem
    · have hpi1 : primaryIndexFor s.1 e = some c := by
        rw [primaryIndexFor_congr hinv.struct]; exact hc
      obtain ⟨primary1, hgc1, hid1, hmir1, _⟩ :=
        hinv.struct.symm.get?_fields hgcB
      have hgm1 : getMirrorIndex s.1 c = some pIdx := by
        rw [getMirrorIndex_congr hinv.struct]; exact hgmB
      obtain ⟨m1, hm1, hres1⟩ :
          ∃ m1, primary1.mirrorId = some m1 ∧
            indexOfNodeId s.1 m1 = some pIdx := by
        have hh := hgm1
        rw [getMirrorIndex_some_elim hgc1] at hh
        cases hmm : primary1.mirrorId with
        | none => rw [hmm, Option.none_bind] at hh; exact Option.noConfusion hh
        | some m1 =>
          rw [hmm, Option.some_bind] at hh
          exact ⟨m1, rfl, hh⟩
      have hplt : pIdx < s.1.length := indexOfNodeId_some_lt hres1
      obtain ⟨partner1, hgp1⟩ : ∃ pa, s.1.get? pIdx = some pa :=
        ⟨_, List.get?_eq_get hplt⟩
      have hcov := mirrorStep_covers sel s e c pIdx primary1 partner1
        hpi1 hgc1 hgm1 hgp1
      have hcov' : primaryB.id ∈ (mirrorStep sel s e).2 := by
        rw [← hid1]; exact hcov
      exact foldl_mirror_mono sel rest _ _ hcov'
    · exact ih _ (mirrorStep_preserves base hwf sel s x hinv) hmem

/-! ## Auxiliary facts for the main symmetry theorem -/

theorem primaryIndexFor_some_of_get? {pts : List Node} {idx : ℕ} {a : Node}
    (h : pts.get? idx = some a) : ∃ c, primaryIndexFor pts idx = some c := by
  rw [primaryIndexFor, h]
  dsimp only
  by_cases hp : (a.primary || a.mirrorId.isNone) = true
  · rw [if_pos hp]; exact ⟨idx, rfl⟩
  · rw [if_neg hp]
    cases hb : a.mirrorId.bind (indexOfNodeId pts) with
    | none => exact ⟨idx, rfl⟩
    | some p => exact ⟨p, rfl⟩

theorem primaryIndexFor_of_nonprimary {pts : List Node} {idx : ℕ} {a : Node}
    {m p : ℕ} (ha : pts.get? idx = some a) (hp : a.primary = false)
    (hm : a.mirrorId = some m) (hres : indexOfNodeId pts m = some p) :
    primaryIndexFor pts idx = some p := by
  rw [primaryIndexFor, ha]
  dsimp only
  rw [if_neg (by simp [hp, hm]), hm, Option.some_bind, hres]

/-- Mutual-link and flag facts extracted from well-formedness, in `get?`
form. -/
theorem WFPoints.link_facts {pts : List Node} (h : WFPoints pts)
    {i j : ℕ} {a b : Node} (ha : pts.get? i = some a)
    (hb : pts.get? j = some b) (hab : a.mirrorId = some b.id) :
    b.mirrorId = some a.id ∧ b.primary = !a.primary ∧ j ≠ i := by
  have hi : i < pts.length := by
    by_contra hge
    rw [List.get?_eq_none.mpr (Nat.le_of_not_lt hge)] at ha
    exact Option.noConfusion ha
  have hj : j < pts.length := by
    by_contra hge
    rw [List.get?_eq_none.mpr (Nat.le_of_not_lt hge)] at hb
    exact Option.noConfusion hb
  have haget : pts.get ⟨i, hi⟩ = a := by
    have hh := ha
    rw [List.get?_eq_get hi] at hh
    exact Option.some.inj hh
  have hbget : pts.get ⟨j, hj⟩ = b := by
    have hh := hb
    rw [List.get?_eq_get hj] at hh
    exact Option.some.inj hh
  obtain ⟨j', hj', hne, hid, hmir, hflag⟩ := h.partner hi
    (by rw [haget]; exact hab)
  have hjj : j' = j := by
    apply nodup_id_get_inj h.1 hj' hj
    rw [hid, hbget]
  subst hjj
  rw [haget] at hmir hflag
  rw [hbget] at hmir hflag
  exact ⟨hmir, hflag, hne⟩

/-- With all weights zero, the displacement loop is the identity. -/
theorem displacePoints_id (pts : List Node) (w : ℕ → ℚ) (dx dy : ℚ)
    (hzero : ∀ i, i < pts.length → w i = 0) :
    displacePoints pts w dx dy = pts := by
  apply List.ext
  intro n
  rw [displacePoints_get?]
  cases hn : pts.get? n with
  | none => rfl
  | some a =>
    have hlt : n < pts.length := by
      by_contra hge
      rw [List.get?_eq_none.mpr (Nat.le_of_not_lt hge)] at hn
      exact Option.noConfusion hn
    rw [Option.map_some', if_pos (hzero n hlt)]

theorem get?_some_lt {α : Type} {l : List α} {i : ℕ} {a : α}
    (h : l.get? i = some a) : i < l.length := by
  by_contra hge
  rw [List.get?_eq_none.mpr (Nat.le_of_not_lt hge)] at h
  exact Option.noConfusion h

/-- `SymmPairs` in `get?` form. -/
theorem symmPairs_iff_get? (pts : List Node) :
    SymmPairs pts ↔ ∀ i j : ℕ, ∀ a b : Node, pts.get? i = some a →
      pts.get? j = some b → a.mirrorId = some b.id →
      (b.x = -a.x ∧ b.y = a.y) := by
  constructor
  · intro h i j a b ha hb hab
    have hi : i < pts.length := get?_some_lt ha
    have hj : j < pts.length := get?_some_lt hb
    have ha' : pts.get ⟨i, hi⟩ = a := by
      have hh := ha
      rw [List.get?_eq_get hi] at hh
      exact Option.some.inj hh
    have hb' : pts.get ⟨j, hj⟩ = b := by
      have hh := hb
      rw [List.get?_eq_get hj] at hh
      exact Option.some.inj hh
    have := h i hi j hj (by rw [ha', hb']; exact hab)
    rw [ha', hb'] at this
    exact this
  · intro h i hi j hj hab
    exact h i j _ _ (List.get?_eq_get hi) (List.get?_eq_get hj) hab

/-- C1: for every polygon whose linked mirror pairs start symmetric
(`SymmPairs`) and whose node array is well formed (`WFPoints`), after any
call to `moveSelectedBy(dx, dy)` with mirroring enabled, every linked pair
`(a, b)` still satisfies `b.x = -a.x` and `b.y = a.y` — for all deltas and
all selections. -/
theorem mirror_symmetry_invariant (st : EditorState) (dx dy : ℚ)
    (hwf : WFPoints st.points) (hsym : SymmPairs st.points)
    (hm : st.mirrorEnabled = true) :
    SymmPairs (moveSelectedBy st dx dy).points := by
  rw [moveSelectedBy]
  by_cases h1 : st.selectedIds.isEmpty = true
  · rw [if_pos h1]; exact hsym
  rw [if_neg h1]
  simp only []
  by_cases h2 : (getSelectedIndices st).isEmpty = true
  · rw [if_pos h2]; exact hsym
  rw [if_neg h2]
  simp only []
  set N := st.points.length with hN
  set w : ℕ → ℚ := hopWeight st.weightEnabled st.perHopFalloff st.maxHops
    (getSelectedIndices st) N with hwdef
  set pts1 := displacePoints st.points w dx dy with hpts1
  set affected := (List.range N).filterMap (fun i =>
    if w i = 0 then none else primaryIndexFor pts1 i) with haff
  have hstruct1 : sameStructure pts1 st.points := displacePoints_struct _ _ _ _
  have hlen1 : pts1.length = st.points.length := hstruct1.length_eq
  have hwf1 : WFPoints pts1 := WFPoints_congr hstruct1 hwf
  by_cases ha : affected.isEmpty = true
  · rw [if_neg (fun hc => hc.2 ha)]
    have hzero : ∀ i, i < st.points.length → w i = 0 := by
      intro i hi
      by_contra hwz
      have hip : i < pts1.length := by rw [hlen1]; exact hi
      obtain ⟨c, hc⟩ := primaryIndexFor_some_of_get?
        (List.get?_eq_get hip : pts1.get? i = some _)
      have hmem : c ∈ affected := by
        rw [haff]
        exact List.mem_filterMap.mpr
          ⟨i, List.mem_range.mpr hi, by rw [if_neg hwz]; exact hc⟩
      rw [List.isEmpty_iff] at ha
      rw [ha] at hmem
      exact absurd hmem (List.not_mem_nil c)
    rw [hpts1, displacePoints_id st.points w dx dy hzero]
    exact hsym
  rw [if_pos ⟨hm, ha⟩]
  rw [applyMirrorConstraints]
  set F := affected.foldl (mirrorStep st.selectedIds) (pts1, []) with hF
  have hfinal : MirrorInv pts1 F :=
    foldl_mirror_preserves pts1 hwf1 st.selectedIds affected (pts1, [])
      (mirrorInv_init pts1)
  have hstructF : sameStructure F.1 pts1 := hfinal.struct
  have hwfF : WFPoints F.1 := WFPoints_congr hstructF hwf1
  have hcov : ∀ k : ℕ, k < st.points.length → ¬ w k = 0 →
      ∀ e c pIdx : ℕ, ∀ pr : Node, primaryIndexFor pts1 k = some e →
        primaryIndexFor pts1 e = some c → pts1.get? c = some pr →
        getMirrorIndex pts1 c = some pIdx → pr.id ∈ F.2 := by
    intro k hk hwk e c pIdx pr hke hec hc hgm
    have he : e ∈ affected := by
      rw [haff]
      exact List.mem_filterMap.mpr
        ⟨k, List.mem_range.mpr hk, by rw [if_neg hwk]; exact hke⟩
    exact foldl_mirror_covers pts1 hwf1 st.selectedIds affected (pts1, [])
      (mirrorInv_init pts1) e he c pIdx pr hec hc hgm
  apply (symmPairs_iff_get? _).mpr
  intro i j x y hx hy hlink
  by_cases hxin : x.id ∈ F.2
  · exact hfinal.procSym i j x y hx hy hlink hxin
  obtain ⟨hymir, hyflag, hji⟩ := hwfF.link_facts hx hy hlink
  have hyn : y.id ∉ F.2 := by
    intro hyin
    obtain ⟨m, hym, hmem⟩ := hfinal.closure j y hy hyin
    rw [hymir] at hym
    have hmx : x.id = m := Option.some.inj hym
    rw [← hmx] at hmem
    exact hxin hmem
  obtain ⟨a1, ha1, haid, hamir, haprim⟩ := hstructF.get?_fields hx
  obtain ⟨b1, hb1, hbid, hbmir, hbprim⟩ := hstructF.get?_fields hy
  have hxco := hfinal.unproc i x a1 hx ha1 hxin
  have hyco := hfinal.unproc j y b1 hy hb1 hyn
  have hilen : i < st.points.length := by
    rw [← hlen1]; exact get?_some_lt ha1
  have hjlen : j < st.points.length := by
    rw [← hlen1]; exact get?_some_lt hb1
  have hab1 : a1.mirrorId = some b1.id := by rw [hamir, hlink, hbid]
  obtain ⟨hb1mir, hb1flag, hji1⟩ := hwf1.link_facts ha1 hb1 hab1
  have hresb : indexOfNodeId pts1 b1.id = some j :=
    indexOfNodeId_of_get? hwf1.1 hb1
  have hresa : indexOfNodeId pts1 a1.id = some i :=
    indexOfNodeId_of_get? hwf1.1 ha1
  have hgmi : getMirrorIndex pts1 i = some j := by
    rw [getMirrorIndex_some_elim ha1, hab1, Option.some_bind]
    exact hresb
  have hgmj : getMirrorIndex pts1 j = some i := by
    rw [getMirrorIndex_some_elim hb1, hb1mir, Option.some_bind]
    exact hresa
  have hwi : w i = 0 := by
    by_contra hwz
    cases hap : a1.primary with
    | true =>
      have hpi : primaryIndexFor pts1 i = some i :=
        primaryIndexFor_of_primary ha1 hap
      exact hxin (by
        rw [← haid]
        exact hcov i hilen hwz i i j a1 hpi hpi ha1 hgmi)
    | false =>
      have hpi : primaryIndexFor pts1 i = some j :=
        primaryIndexFor_of_nonprimary ha1 hap hab1 hresb
      have hbp : b1.primary = true := by rw [hb1flag, hap]; rfl
      have hpj : primaryIndexFor pts1 j = some j :=
        primaryIndexFor_of_primary hb1 hbp
      exact hyn (by
        rw [← hbid]
        exact hcov i hilen hwz j j i b1 hpi hpj hb1 hgmj)
  have hwj : w j = 0 := by
    by_contra hwz
    cases hbp : b1.primary with
    | true =>
      have hpj : primaryIndexFor pts1 j = some j :=
        primaryIndexFor_of_primary hb1 hbp
      exact hyn (by
        rw [← hbid]
        exact hcov j hjlen hwz j j i b1 hpj hpj hb1 hgmj)
    | false =>
      have hap : a1.primary = true := by
        cases hq : a1.primary
        · rw [hq] at hb1flag
          rw [hbp] at hb1flag
          exact absurd hb1flag (by decide)
        · rfl
      have hpj : primaryIndexFor pts1 j = some i :=
        primaryIndexFor_of_nonprimary hb1 hbp hb1mir hresa
      have hpi : primaryIndexFor pts1 i = some i :=
        primaryIndexFor_of_primary ha1 hap
      exact hxin (by
        rw [← haid]
        exact hcov j hjlen hwz i i j a1 hpj hpi ha1 hgmi)
  have hg1 : pts1.get? i = st.points.get? i := by
    rw [hpts1, displacePoints_get?]
    cases ho : st.points.get? i with
    | none => rfl
    | some o => rw [Option.map_some', if_pos hwi]
  have hg2 : pts1.get? j = st.points.get? j := by
    rw [hpts1, displacePoints_get?]
    cases ho : st.points.get? j with
    | none => rfl
    | some o => rw [Option.map_some', if_pos hwj]
  have hoi : st.points.get? i = some a1 := by rw [← hg1]; exact ha1
  have hoj : st.points.get? j = some b1 := by rw [← hg2]; exact hb1
  have hbase := (symmPairs_iff_get? st.points).mp hsym i j a1 b1 hoi hoj hab1
  constructor
  · rw [hyco.1, hbase.1, hxco.1]
  · rw [hyco.2, hbase.2, hxco.2]

/-- A concrete mirrored triangle: pair `1 ↔ 2` at `(±5, 2)`, lone apex `3`;
node `1` selected, mirroring on, weighting off. -/
def mirrorC1 : EditorState :=
  ⟨[⟨1, 5, 2, some 2, true⟩, ⟨2, -5, 2, some 1, false⟩,
    ⟨3, 0, -7, none, true⟩],
   4, [1], 0, 0, 1, true, false, 1, 2⟩

/-- Witness for C1: the mirrored triangle is well formed and symmetric, and
stays symmetric after dragging the selected node by `(3, 4)`. -/
theorem mirror_symmetry_invariant_witness :
    (WFPoints mirrorC1.points ∧ SymmPairs mirrorC1.points ∧
      mirrorC1.mirrorEnabled = true) ∧
    SymmPairs (moveSelectedBy mirrorC1 3 4).points :=
  ⟨⟨by decide, by decide, rfl⟩,
   mirror_symmetry_invariant mirrorC1 3 4 (by decide) (by decide) rfl⟩

/-! ## C8: the easing table -/

/-- `f` sends `t` into `[0, 1]`. -/
def unitValueAt (f : ℝ → ℝ) (t : ℝ) : Prop := 0 ≤ f t ∧ f t ≤ 1

/-- `f` fixes the endpoints of the unit interval. -/
def fixesEndpoints (f : ℝ → ℝ) : Prop := f 0 = 0 ∧ f 1 = 1

theorem easeInElastic_at_two_fifths : Easing.easeInElastic (2/5) = -(1/64) := by
  rw [Easing.easeInElastic, if_neg (by norm_num)]
  have he : (10 : ℝ) * (2/5 - 1) = ((-6 : ℤ) : ℝ) := by norm_num
  have hs : ((2/5 : ℝ) - 11/10) * 5 * Real.pi =
      Real.pi/2 + (-2 : ℤ) * (2 * Real.pi) := by ring
  rw [he, Real.rpow_intCast, hs, Real.sin_add_int_mul_two_pi,
    Real.sin_pi_div_two]
  norm_num

theorem easeOutElastic_at_one_fifth : Easing.easeOutElastic (1/5) = 5/4 := by
  rw [Easing.easeOutElastic, if_neg (by norm_num)]
  have he : (-10 : ℝ) * (1/5) = ((-2 : ℤ) : ℝ) := by norm_num
  have hs : ((1/5 : ℝ) - 1/10) * 5 * Real.pi = Real.pi/2 := by ring
  rw [he, Real.rpow_intCast, hs, Real.sin_pi_div_two]
  norm_num

/-- C8 fails as stated: `easeInElastic` is in the engine's table, `2/5` lies
in `[0, 1]`, yet the value is `-1/64 < 0`, outside `[0, 1]`. -/
theorem easing_unit_interval_counterexample :
    (0 ≤ (2/5 : ℝ) ∧ (2/5 : ℝ) ≤ 1) ∧
    Easing.easeInElastic (2/5) = -(1/64) ∧
    Easing.easeInElastic (2/5) < 0 ∧
    ¬ unitValueAt Easing.easeInElastic (2/5) := by
  have h := easeInElastic_at_two_fifths
  refine ⟨⟨by norm_num, by norm_num⟩, h, by rw [h]; norm_num, ?_⟩
  rw [unitValueAt, h]
  intro hc
  have := hc.1
  norm_num at this

theorem easing_linear_range (t : ℝ) (h0 : 0 ≤ t) (h1 : t ≤ 1) :
    unitValueAt Easing.linear t :=
  ⟨h0, h1⟩

theorem easing_easeInQuad_range (t : ℝ) (h0 : 0 ≤ t) (h1 : t ≤ 1) :
    unitValueAt Easing.easeInQuad t := by
  constructor
  · exact mul_nonneg h0 h0
  · rw [Easing.easeInQuad]
    nlinarith

theorem easing_easeOutQuad_range (t : ℝ) (h0 : 0 ≤ t) (h1 : t ≤ 1) :
    unitValueAt Easing.easeOutQuad t := by
  rw [unitValueAt, Easing.easeOutQuad]
  constructor
  · nlinarith
  · nlinarith [sq_nonneg (1 - t)]

theorem easing_easeInOutQuad_range (t : ℝ) (h0 : 0 ≤ t) (h1 : t ≤ 1) :
    unitValueAt Easing.easeInOutQuad t := by
  rw [unitValueAt, Easing.easeInOutQuad]
  split
  · constructor
    · positivity
    · nlinarith
  · constructor
    · nlinarith [mul_nonneg (by linarith : (0:ℝ) ≤ t - 1/2)
        (by linarith : (0:ℝ) ≤ 1 - t)]
    · nlinarith [sq_nonneg (1 - t)]

theorem easing_easeInCubic_range (t : ℝ) (h0 : 0 ≤ t) (h1 : t ≤ 1) :
    unitValueAt Easing.easeInCubic t := by
  rw [unitValueAt, Easing.easeInCubic]
  constructor
  · positivity
  · nlinarith [mul_nonneg h0 h0, mul_nonneg (mul_nonneg h0 h0) h0]

theorem easing_easeOutCubic_range (t : ℝ) (h0 : 0 ≤ t) (h1 : t ≤ 1) :
    unitValueAt Easing.easeOutCubic t := by
  rw [unitValueAt, Easing.easeOutCubic]
  constructor
  · nlinarith [sq_nonneg (t - 1)]
  · nlinarith [sq_nonneg (t - 1)]

theorem easing_easeInOutCubic_range (t : ℝ) (h0 : 0 ≤ t) (h1 : t ≤ 1) :
    unitValueAt Easing.easeInOutCubic t := by
  rw [unitValueAt, Easing.easeInOutCubic]
  split
  · rename_i h
    constructor
    · positivity
    · nlinarith [mul_nonneg (mul_nonneg (by linarith : (0:ℝ) ≤ 1/2 - t) h0) h0,
        mul_nonneg (by linarith : (0:ℝ) ≤ 1/2 - t) h0]
  · constructor
    · nlinarith [sq_nonneg (t - 1)]
    · nlinarith [sq_nonneg (t - 1)]

theorem easing_easeInQuart_range (t : ℝ) (h0 : 0 ≤ t) (h1 : t ≤ 1) :
    unitValueAt Easing.easeInQuart t := by
  rw [unitValueAt, Easing.easeInQuart]
  constructor
  · positivity
  · nlinarith [mul_nonneg h0 h0, mul_nonneg (mul_nonneg h0 h0) h0,
      mul_nonneg (mul_nonneg (mul_nonneg h0 h0) h0) h0]

theorem easing_easeOutQuart_range (t : ℝ) (h0 : 0 ≤ t) (h1 : t ≤ 1) :
    unitValueAt Easing.easeOutQuart t := by
  rw [unitValueAt, Easing.easeOutQuart]
  have hu : 0 ≤ (1-t)*(1-t) := mul_nonneg (by linarith) (by linarith)
  have hu2 : (1-t)*(1-t) ≤ 1 := by nlinarith
  have h4 : (1-t)*(1-t)*((1-t)*(1-t)) ≤ 1 := mul_le_one₀ hu2 hu hu2
  constructor
  · nlinarith [h4]
  · nlinarith [sq_nonneg ((t-1)*(t-1)), hu]

theorem easing_easeInOutQuart_range (t : ℝ) (h0 : 0 ≤ t) (h1 : t ≤ 1) :
    unitValueAt Easing.easeInOutQuart t := by
  rw [unitValueAt, Easing.easeInOutQuart]
  split
  · rename_i h
    constructor
    · positivity
    · nlinarith [mul_nonneg (mul_nonneg (mul_nonneg
          (by linarith : (0:ℝ) ≤ 1/2 - t) h0) h0) h0,
        mul_nonneg (mul_nonneg (by linarith : (0:ℝ) ≤ 1/2 - t) h0) h0,
        mul_nonneg (by linarith : (0:ℝ) ≤ 1/2 - t) h0]
  · rename_i h
    push_neg at h
    constructor
    · nlinarith [mul_nonneg (mul_nonneg (by linarith : (0:ℝ) ≤ 1 - t)
        (by linarith : (0:ℝ) ≤ 1 - t)) (by linarith : (0:ℝ) ≤ 1 - t),
        sq_nonneg ((t-1)*(t-1))]
    · nlinarith [sq_nonneg ((t-1)*(t-1))]

theorem easing_easeOutBounce_range (t : ℝ) (h0 : 0 ≤ t) (h1 : t ≤ 1) :
    unitValueAt Easing.easeOutBounce t := by
  rw [unitValueAt, Easing.easeOutBounce]
  split
  · rename_i h
    constructor
    · positivity
    · nlinarith
  · rename_i h
    push_neg at h
    split
    · rename_i h2
      constructor
      · nlinarith [sq_nonneg (t - 6/11)]
      · nlinarith [mul_nonneg (by linarith : (0:ℝ) ≤ t - 4/11)
          (by linarith : (0:ℝ) ≤ 8/11 - t)]
    · rename_i h2
      push_neg at h2
      split
      · rename_i h3
        constructor
        · nlinarith [sq_nonneg (t - 9/11)]
        · nlinarith [mul_nonneg (by linarith : (0:ℝ) ≤ t - 8/11)
            (by linarith : (0:ℝ) ≤ 10/11 - t)]
      · rename_i h3
        push_neg at h3
        constructor
        · nlinarith [sq_nonneg (t - 21/22)]
        · nlinarith [mul_nonneg (by linarith : (0:ℝ) ≤ t - 10/11)
            (by linarith : (0:ℝ) ≤ 1 - t)]

theorem easing_endpoints_all :
    fixesEndpoints Easing.linear ∧ fixesEndpoints Easing.easeInQuad ∧
    fixesEndpoints Easing.easeOutQuad ∧ fixesEndpoints Easing.easeInOutQuad ∧
    fixesEndpoints Easing.easeInCubic ∧ fixesEndpoints Easing.easeOutCubic ∧
    fixesEndpoints Easing.easeInOutCubic ∧ fixesEndpoints Easing.easeInQuart ∧
    fixesEndpoints Easing.easeOutQuart ∧ fixesEndpoints Easing.easeInOutQuart ∧
    fixesEndpoints Easing.easeInElastic ∧ fixesEndpoints Easing.easeOutElastic ∧
    fixesEndpoints Easing.easeOutBounce := by
  refine ⟨⟨rfl, rfl⟩, ?_, ?_, ?_, ?_, ?_, ?_, ?_, ?_, ?_, ?_, ?_, ?_⟩ <;>
    constructor <;>
    norm_num [fixesEndpoints, Easing.easeInQuad, Easing.easeOutQuad,
      Easing.easeInOutQuad, Easing.easeInCubic, Easing.easeOutCubic,
      Easing.easeInOutCubic, Easing.easeInQuart, Easing.easeOutQuart,
      Easing.easeInOutQuart, Easing.easeInElastic, Easing.easeOutElastic,
      Easing.easeOutBounce]

/-- C8 (amended): every easing function in the table fixes the endpoints
(`f 0 = 0`, `f 1 = 1`), and all of them except the two elastic ones are pure
`[0,1] → [0,1]` maps; the elastic pair genuinely leaves the interval
(`easeInElastic` undershoots below `0`, `easeOutElastic` overshoots above
`1`). -/
theorem easing_table_amended (t : ℝ) (h0 : 0 ≤ t) (h1 : t ≤ 1) :
    (fixesEndpoints Easing.linear ∧ fixesEndpoints Easing.easeInQuad ∧
     fixesEndpoints Easing.easeOutQuad ∧ fixesEndpoints Easing.easeInOutQuad ∧
     fixesEndpoints Easing.easeInCubic ∧ fixesEndpoints Easing.easeOutCubic ∧
     fixesEndpoints Easing.easeInOutCubic ∧ fixesEndpoints Easing.easeInQuart ∧
     fixesEndpoints Easing.easeOutQuart ∧ fixesEndpoints Easing.easeInOutQuart ∧
     fixesEndpoints Easing.easeInElastic ∧ fixesEndpoints Easing.easeOutElastic ∧
     fixesEndpoints Easing.easeOutBounce) ∧
    (unitValueAt Easing.linear t ∧ unitValueAt Easing.easeInQuad t ∧
     unitValueAt Easing.easeOutQuad t ∧ unitValueAt Easing.easeInOutQuad t ∧
     unitValueAt Easing.easeInCubic t ∧ unitValueAt Easing.easeOutCubic t ∧
     unitValueAt Easing.easeInOutCubic t ∧ unitValueAt Easing.easeInQuart t ∧
     unitValueAt Easing.easeOutQuart t ∧ unitValueAt Easing.easeInOutQuart t ∧
     unitValueAt Easing.easeOutBounce t) ∧
    (Easing.easeInElastic (2/5) < 0 ∧ 1 < Easing.easeOutElastic (1/5)) :=
  ⟨easing_endpoints_all,
   ⟨easing_linear_range t h0 h1, easing_easeInQuad_range t h0 h1,
    easing_easeOutQuad_range t h0 h1, easing_easeInOutQuad_range t h0 h1,
    easing_easeInCubic_range t h0 h1, easing_easeOutCubic_range t h0 h1,
    easing_easeInOutCubic_range t h0 h1, easing_easeInQuart_range t h0 h1,
    easing_easeOutQuart_range t h0 h1, easing_easeInOutQuart_range t h0 h1,
    easing_easeOutBounce_range t h0 h1⟩,
   by rw [easeInElastic_at_two_fifths]; norm_num,
   by rw [easeOutElastic_at_one_fifth]; norm_num⟩

/-- Witness for the amended C8 at `t = 1/3`. -/
theorem easing_table_amended_witness :
    (0 ≤ (1/3 : ℝ) ∧ (1/3 : ℝ) ≤ 1) ∧
    (unitValueAt Easing.linear (1/3) ∧ unitValueAt Easing.easeInQuad (1/3) ∧
     unitValueAt Easing.easeOutQuad (1/3) ∧ unitValueAt Easing.easeInOutQuad (1/3) ∧
     unitValueAt Easing.easeInCubic (1/3) ∧ unitValueAt Easing.easeOutCubic (1/3) ∧
     unitValueAt Easing.easeInOutCubic (1/3) ∧ unitValueAt Easing.easeInQuart (1/3) ∧
     unitValueAt Easing.easeOutQuart (1/3) ∧ unitValueAt Easing.easeInOutQuart (1/3) ∧
     unitValueAt Easing.easeOutBounce (1/3)) :=
  ⟨⟨by norm_num, by norm_num⟩,
   (easing_table_amended (1/3) (by norm_num) (by norm_num)).2.1⟩

/-! ## C4: delete is silently refused below 3 remaining vertices -/

/-- C4: when removing the selection together with the mirror partners would
leave fewer than 3 vertices, the delete handler is a complete no-op: points,
selection, mirror links and both history stacks are unchanged (and the model
is a total function — nothing is thrown). -/
theorem delete_refused_below_three (st : EditorState) (hist : History)
    (h : st.points.length - (removalIndicesOf st).length < 3) :
    deleteSelected st hist = (st, hist) := by
  unfold deleteSelected
  by_cases he : st.selectedIds.isEmpty
  · simp [he]
  · simp [he, Nat.not_le.mpr h]

/-- Witness for C4: deleting one vertex of a triangle is refused. -/
theorem delete_refused_below_three_witness :
    (⟨[⟨1, 2, 3, none, true⟩, ⟨2, -2, 3, none, true⟩, ⟨3, 0, -4, none, true⟩],
        4, [2], 0, 0, 1, false, false, 1/2, 3⟩ : EditorState).points.length -
      (removalIndicesOf
        ⟨[⟨1, 2, 3, none, true⟩, ⟨2, -2, 3, none, true⟩, ⟨3, 0, -4, none, true⟩],
          4, [2], 0, 0, 1, false, false, 1/2, 3⟩).length < 3 ∧
    deleteSelected
      ⟨[⟨1, 2, 3, none, true⟩, ⟨2, -2, 3, none, true⟩, ⟨3, 0, -4, none, true⟩],
        4, [2], 0, 0, 1, false, false, 1/2, 3⟩ ⟨[], [], none⟩ =
      (⟨[⟨1, 2, 3, none, true⟩, ⟨2, -2, 3, none, true⟩, ⟨3, 0, -4, none, true⟩],
        4, [2], 0, 0, 1, false, false, 1/2, 3⟩, ⟨[], [], none⟩) :=
  ⟨by decide, delete_refused_below_three _ _ (by decide)⟩

end PolyEdit
